import Mathlib

/-!
Verification of the block-extraction and testing engine of quarto_tools
(`src/quarto_tools/blocks.py` and `src/quarto_tools/pytest_qmd.py`).

Text is modelled as `List Char`.  The three regular expressions of
`blocks.py` (`BLOCK_RE`, `LABEL_RE`, `CAPTION_RE`) are embedded as
hand-written scanners with the same matching semantics on the ASCII
domain the source operates on (leftmost match, greedy `\s*` / `\S+`,
lazy `.*?` and `\S*?` with the backtracking the patterns allow).
-/

namespace QuartoTools

/-- The backtick character of a code fence (spelled numerically). -/
def fenceChar : Char := Char.ofNat 96

/-- Opening brace `\x7b`. -/
def braceOpen : Char := Char.ofNat 123

/-- Closing brace `\x7d`. -/
def braceClose : Char := Char.ofNat 125

/-- Single-quote character. -/
def squote : Char := Char.ofNat 39

/-- Double-quote character. -/
def dquote : Char := Char.ofNat 34

/-- Characters allowed in a fence language tag: `[a-zA-Z0-9_-]` (BLOCK_RE). -/
def isLangChar (c : Char) : Bool :=
  c.isAlpha || c.isDigit || c == '_' || c == '-'

/-- Python's `\s` on the ASCII range: space, tab, newline, CR, VT, FF. -/
def pyIsSpace (c : Char) : Bool :=
  c == ' ' || c == '\t' || c == '\n' || c == '\x0d' ||
  c == '\x0b' || c == '\x0c'

/-- Number of newline characters in a character list. -/
def countNl (cs : List Char) : Nat :=
  (cs.filter (fun c => c == '\n')).length

/-- `str.strip` with argument `"\n"`: remove newlines from both ends only. -/
def stripNl (cs : List Char) : List Char :=
  ((cs.dropWhile (fun c => c == '\n')).reverse.dropWhile
    (fun c => c == '\n')).reverse

/-- Python `str.lower` on the ASCII domain used here. -/
def pyLower (cs : List Char) : List Char := cs.map Char.toLower

/-- Split at the first occurrence of the closing fence (three backticks):
returns the text before it and the text after it.  This is the lazy
`(?P<code>.*?)` + closing-fence tail of BLOCK_RE. -/
def splitAtCloseFence : List Char → Option (List Char × List Char)
  | [] => none
  | a :: rest =>
    match rest with
    | b :: c :: rest2 =>
      if a == fenceChar && b == fenceChar && c == fenceChar then
        some ([], rest2)
      else
        match splitAtCloseFence rest with
        | some (pre, post) => some (a :: pre, post)
        | none => none
    | _ => none

/-- One raw BLOCK_RE match: the language tag, the raw (unstripped) code
group, and the number of newlines in the text before the code group's
start (used for `start_line`). -/
structure RawFence where
  lang : List Char
  rawCode : List Char
  nlBefore : Nat
  deriving Repr, DecidableEq

/-- One attempt of BLOCK_RE anchored at the head of `cs`, where `nl`
newlines precede `cs` in the document.  On success returns the fence
data, the remaining text after the closing fence, and the updated
newline count.  Mirrors
 three backticks, brace, `[a-zA-Z0-9_-]+`, `[^\x7d]*`, brace, `\s*\n?`,
lazy code group, three backticks. -/
def matchFence (cs : List Char) (nl : Nat) :
    Option (RawFence × List Char × Nat) :=
  match cs with
  | a :: b :: c :: d :: rest =>
    if a == fenceChar && b == fenceChar && c == fenceChar && d == braceOpen then
      let lang := rest.takeWhile isLangChar
      if lang.isEmpty then none
      else
        let afterLang := rest.dropWhile isLangChar
        let inner := afterLang.takeWhile (fun ch => !(ch == braceClose))
        match afterLang.dropWhile (fun ch => !(ch == braceClose)) with
        | e :: afterBrace =>
          if e == braceClose then
            let ws := afterBrace.takeWhile pyIsSpace
            let codeStart := afterBrace.dropWhile pyIsSpace
            match splitAtCloseFence codeStart with
            | some (code, rest2) =>
              let nlBefore := nl + countNl inner + countNl ws
              some (⟨lang, code, nlBefore⟩, rest2, nlBefore + countNl code)
            | none => none
          else none
        | [] => none
    else none
  | _ => none

/-- Fuelled scanner for `BLOCK_RE.finditer`: at each position try an
anchored match; on success continue after the match, otherwise advance
one character.  The fuel is the text length, which bounds the number of
positions ever visited. -/
def scanFences : Nat → List Char → Nat → List RawFence
  | 0, _, _ => []
  | _ + 1, [], _ => []
  | fuel + 1, c :: rest, nl =>
    match matchFence (c :: rest) nl with
    | some (f, rest2, nl2) => f :: scanFences fuel rest2 nl2
    | none => scanFences fuel rest (nl + (if c == '\n' then 1 else 0))

/-- All BLOCK_RE matches of a document, in document order. -/
def rawFences (text : List Char) : List RawFence :=
  scanFences text.length text 0

/-- LABEL_RE (`#\|\s*label:\s*(\S+)`) anchored at the head of `cs`:
returns the captured `\S+` group. -/
def matchLabelAt (cs : List Char) : Option (List Char) :=
  match cs with
  | '#' :: '|' :: rest =>
    match rest.dropWhile pyIsSpace with
    | 'l' :: 'a' :: 'b' :: 'e' :: 'l' :: ':' :: r2 =>
      let cap := (r2.dropWhile pyIsSpace).takeWhile (fun c => !(pyIsSpace c))
      if cap.isEmpty then none else some cap
    | _ => none
  | _ => none

/-- `LABEL_RE.search`: the first position with an anchored match. -/
def searchLabel : List Char → Option (List Char)
  | [] => none
  | c :: rest =>
    match matchLabelAt (c :: rest) with
    | some v => some v
    | none => searchLabel rest

/-- Is this character one of the two quote characters of CAPTION_RE? -/
def isQuote (c : Char) : Bool := c == squote || c == dquote

/-- The lazy `(.+?)` of CAPTION_RE followed by a closing quote: the
shortest non-empty run of non-newline characters followed by a quote.
`acc` holds the reversed run consumed so far. -/
def lazyCapture : List Char → List Char → Option (List Char)
  | acc, c :: rest =>
    if !acc.isEmpty && isQuote c then some acc.reverse
    else if c == '\n' then none
    else lazyCapture (c :: acc) rest
  | _, [] => none

/-- The `\s*['"](.+?)['"]` tail of CAPTION_RE. -/
def matchCapTail (cs : List Char) : Option (List Char) :=
  match cs.dropWhile pyIsSpace with
  | q :: rest => if isQuote q then lazyCapture [] rest else none
  | [] => none

/-- The `\S*?-cap:` portion of CAPTION_RE plus its tail, starting after
the optional whitespace: the lazy `\S*?` tries each occurrence of
`-cap:` reachable through non-space characters, earliest first, and the
first whose quoted tail matches wins. -/
def searchCapFrom : List Char → Option (List Char)
  | [] => none
  | c :: rest =>
    match c, rest with
    | '-', 'c' :: 'a' :: 'p' :: ':' :: rest2 =>
      match matchCapTail rest2 with
      | some v => some v
      | none => searchCapFrom rest
    | _, _ => if pyIsSpace c then none else searchCapFrom rest

/-- CAPTION_RE (`#\|\s*\S*?-cap:\s*['"](.+?)['"]`) anchored at the head. -/
def matchCaptionAt : List Char → Option (List Char)
  | '#' :: '|' :: rest => searchCapFrom (rest.dropWhile pyIsSpace)
  | _ => none

/-- `CAPTION_RE.search`: the first position with an anchored match. -/
def searchCaption : List Char → Option (List Char)
  | [] => none
  | c :: rest =>
    match matchCaptionAt (c :: rest) with
    | some v => some v
    | none => searchCaption rest

/-- A filesystem path, as a list of segments. -/
abbrev SysPath := List String

/-- `blocks.CodeBlock`: one fenced code block of a `.qmd` file. -/
structure CodeBlock where
  file : SysPath
  block_index : Nat
  lang : List Char
  label : Option (List Char)
  caption : Option (List Char)
  code : List Char
  start_line : Option Nat
  end_line : Option Nat
  deriving Repr, DecidableEq

/-- Build the CodeBlock for the `i`-th raw fence (loop body of
`extract_code_blocks`): strip newlines from the code group, compute
line numbers from the newline count before the code group, and search
for label and caption inside the stripped code. -/
def mkBlock (file : SysPath) (i : Nat) (f : RawFence) : CodeBlock :=
  let code := stripNl f.rawCode
  let startLine := f.nlBefore + 1
  { file := file
    block_index := i
    lang := f.lang
    label := searchLabel code
    caption := searchCaption code
    code := code
    start_line := some startLine
    end_line := some (startLine + countNl code) }

/-- The language filter of `extract_code_blocks`: keep a fence when the
filter is `none`, or when the tags agree after lowercasing. -/
def keepFence (lang : Option (List Char)) (f : RawFence) : Bool :=
  match lang with
  | none => true
  | some l => pyLower f.lang == pyLower l

/-- The `for i, match in enumerate(..., start=1)` loop of
`extract_code_blocks`: every raw fence consumes an index; only
filter-matching fences are emitted. -/
def extractLoop (file : SysPath) (lang : Option (List Char)) :
    Nat → List RawFence → List CodeBlock
  | _, [] => []
  | i, f :: rest =>
    if keepFence lang f then
      mkBlock file i f :: extractLoop file lang (i + 1) rest
    else
      extractLoop file lang (i + 1) rest

/-- `blocks.extract_code_blocks`: parse the fenced code blocks of a
document, filtered by language (case-insensitively). -/
def extract_code_blocks (text : List Char) (file : SysPath)
    (lang : Option (List Char)) : List CodeBlock :=
  extractLoop file lang 1 (rawFences text)

/-! ## pytest_qmd.py: data model -/

/-- The fixed language filter of `_collect_block_objects`. -/
def pythonTag : List Char := "python".toList

/-- One discovered source document: its (absolute, as-discovered) path
and the text read from it.  Discovery itself is the out-of-scope
collaborator (`discover_quarto_sources`); the engine consumes its
ordered output. -/
structure Document where
  path : SysPath
  text : List Char
  deriving Repr, DecidableEq

/-- The python blocks of one document (loop body of
`_collect_block_objects`). -/
def pyBlocksOf (d : Document) : List CodeBlock :=
  extract_code_blocks d.text d.path (some pythonTag)

/-- `QuartoPyTest._collect_block_objects`: all python blocks of the
project, in source order. -/
def collectBlockObjects (srcs : List Document) : List CodeBlock :=
  srcs.flatMap pyBlocksOf

/-- `Path.relative_to`: drop the base prefix.  The source raises
ValueError when `base` is not a prefix; every caller here passes paths
under `base`, so the non-prefix case (returning `p` unchanged) is never
exercised in the theorems. -/
def relTo (base p : SysPath) : SysPath :=
  if base.isPrefixOf p then p.drop base.length else p

/-- `base / rel` on paths. -/
def joinPath (base rel : SysPath) : SysPath := base ++ rel

/-- The stem of a file name: everything before the last dot, provided
some dot occurs at a position other than 0 (pathlib suffix rules). -/
def stemOf (s : String) : String :=
  match s.toList.reverse.dropWhile (fun c => !(c == '.')) with
  | '.' :: rest => if rest.isEmpty then s else rest.reverse.asString
  | _ => s

/-- `Path.with_suffix(".py")`: replace the final segment's extension. -/
def withSuffixPy (p : SysPath) : SysPath :=
  match p.getLast? with
  | none => p
  | some name => p.dropLast ++ [stemOf name ++ ".py"]

/-- Python `dict` assignment on an insertion-ordered association list:
overwrite an existing key in place, else append at the end. -/
def dictInsert {α : Type} (m : List (SysPath × α)) (k : SysPath) (v : α) :
    List (SysPath × α) :=
  match m with
  | [] => [(k, v)]
  | (k2, v2) :: rest =>
    if k2 = k then (k, v) :: rest else (k2, v2) :: dictInsert rest k v

/-- Python `dict` lookup on an association list. -/
def dictGet {α : Type} (m : List (SysPath × α)) (k : SysPath) : Option α :=
  match m with
  | [] => none
  | (k2, v2) :: rest => if k2 = k then some v2 else dictGet rest k

/-- A pandas DataFrame with a fixed row type: the column names and the
row records. -/
structure DataFrame (ρ : Type) where
  columns : List String
  rows : List ρ
  deriving Repr, DecidableEq

/-- A row of `collect_blocks`. -/
structure CollectRow where
  file : SysPath
  block_index : Nat
  lang : List Char
  label : Option (List Char)
  caption : Option (List Char)
  start_line : Option Nat
  end_line : Option Nat
  code : List Char
  deriving Repr, DecidableEq

/-- Column schema of `collect_blocks` (both the explicit empty-frame
columns and the record key order of the non-empty branch). -/
def collectColumns : List String :=
  ["file", "block_index", "lang", "label", "caption", "start_line",
   "end_line", "code"]

/-- Record built for one block by `collect_blocks`. -/
def collectRowOf (base : SysPath) (b : CodeBlock) : CollectRow :=
  ⟨relTo base b.file, b.block_index, b.lang, b.label, b.caption,
   b.start_line, b.end_line, b.code⟩

/-- `QuartoPyTest.collect_blocks`. -/
def collect_blocks (base : SysPath) (srcs : List Document) :
    DataFrame CollectRow :=
  let blocks := collectBlockObjects srcs
  if blocks.isEmpty then ⟨collectColumns, []⟩
  else ⟨collectColumns, blocks.map (collectRowOf base)⟩

/-! ## pytest_qmd.py: the materializer (`extract`) -/

/-- `by_file.setdefault(block.file, []).append(block)` for one block:
append to the existing group of the block's file, else start a new
group at the end (insertion-ordered dict of lists). -/
def insertGroup : List (SysPath × List CodeBlock) → CodeBlock →
    List (SysPath × List CodeBlock)
  | [], b => [(b.file, [b])]
  | (f, bs) :: rest, b =>
    if f = b.file then (f, bs ++ [b]) :: rest
    else (f, bs) :: insertGroup rest b

/-- Group blocks by origin file, preserving first-appearance key order
and per-file block order. -/
def groupByFile (blocks : List CodeBlock) : List (SysPath × List CodeBlock) :=
  blocks.foldl insertGroup []

/-- Stable insertion into a list sorted by `block_index`. -/
def insertByIdx (b : CodeBlock) : List CodeBlock → List CodeBlock
  | [] => [b]
  | c :: rest =>
    if b.block_index ≤ c.block_index then b :: c :: rest
    else c :: insertByIdx b rest

/-- `file_blocks.sort(key=lambda b: b.block_index)` (stable sort). -/
def sortByIdx : List CodeBlock → List CodeBlock
  | [] => []
  | b :: rest => insertByIdx b (sortByIdx rest)

/-- One character of Python `repr` of a string, for the chosen quote. -/
def pyReprChar (q : Char) (c : Char) : List Char :=
  if c == '\\' then ['\\', '\\']
  else if c == q then ['\\', q]
  else [c]

/-- Python `repr` of a string on the printable-ASCII domain of
captions: single quotes unless the text holds a single quote and no
double quote; escape backslashes and the chosen quote. -/
def pyRepr (cs : List Char) : List Char :=
  let q := if cs.contains squote && !cs.contains dquote then dquote else squote
  q :: (cs.flatMap (pyReprChar q)) ++ [q]

/-- Python truthiness of an optional string. -/
def truthy : Option (List Char) → Bool
  | none => false
  | some l => !l.isEmpty

/-- Decimal digits of a natural number. -/
def natChars (n : Nat) : List Char := (Nat.repr n).toList

/-- The `header_parts` list for one block: `# === Block i`, then
`label=...` and `caption=...` when present (Python truthiness). -/
def headerParts (b : CodeBlock) : List (List Char) :=
  ("# === Block ".toList ++ natChars b.block_index) ::
  ((if truthy b.label then ["label=".toList ++ b.label.getD []] else []) ++
   (if truthy b.caption then
      ["caption=".toList ++ pyRepr (b.caption.getD [])] else []))

/-- `sep.join(parts)`. -/
def joinSep (sep : List Char) : List (List Char) → List Char
  | [] => []
  | [x] => x
  | x :: y :: rest => x ++ sep ++ joinSep sep (y :: rest)

/-- `header = " ".join(header_parts)`. -/
def headerFor (b : CodeBlock) : List Char := joinSep [' '] (headerParts b)

/-- The `lines` accumulated by the materializer loop: per block a header
line, the code, and an empty separator line. -/
def chapterLines : List CodeBlock → List (List Char)
  | [] => []
  | b :: rest => headerFor b :: b.code :: [] :: chapterLines rest

/-- `"\n".join(lines)` plus the trailing-newline fix-up of `extract`. -/
def chapterText (blocks : List CodeBlock) : List Char :=
  let text := joinSep ['\n'] (chapterLines blocks)
  if !text.isEmpty && !(text.getLast? == some '\n') then text ++ ['\n']
  else text

/-- A row of the manifest returned by `extract`. -/
structure ManifestRow where
  file : SysPath
  py_file : SysPath
  blocks : Nat
  deriving Repr, DecidableEq

/-- A file written by `extract`: the script path and its content. -/
structure Artifact where
  path : SysPath
  content : List Char
  deriving Repr, DecidableEq

/-- Column schema of the `extract` manifest. -/
def manifestColumns : List String := ["file", "py_file", "blocks"]

/-- Manifest row and artifact produced for one document group by the
`extract` loop. -/
def extractRecord (base outputDir : SysPath)
    (g : SysPath × List CodeBlock) : ManifestRow × Artifact :=
  let sorted := sortByIdx g.2
  let rel := relTo base g.1
  let pyPath := withSuffixPy (joinPath outputDir rel)
  (⟨rel, relTo outputDir pyPath, sorted.length⟩, ⟨pyPath, chapterText sorted⟩)

/-- `QuartoPyTest.extract`: one script per document with at least one
python block, plus the manifest.  `outputDir` is the already-resolved
destination (the source calls `output_dir.resolve()` first; directory
creation and writing are the returned artifact list). -/
def extract (base : SysPath) (srcs : List Document) (outputDir : SysPath) :
    DataFrame ManifestRow × List Artifact :=
  let blocks := collectBlockObjects srcs
  if blocks.isEmpty then (⟨manifestColumns, []⟩, [])
  else
    let recs := (groupByFile blocks).map (extractRecord base outputDir)
    (⟨manifestColumns, recs.map Prod.fst⟩, recs.map Prod.snd)

/-! ## pytest_qmd.py: the single-process runner (`run`)

`compile(...)` and `InteractiveShell.run_cell` are external
collaborators (CPython's parser and IPython); they are modelled as
oracles passed to `run`: a compile oracle, and a stateful cell oracle
over an abstract shell state `σ` (the `InteractiveShell` instance). -/

/-- Outcome of the `compile(block.code, str(block.file), "exec")`
oracle: success, a raised `SyntaxError` (first except clause: class
name, message, `exc.lineno`, `exc.offset`), or another raised
exception (second except clause: class name and message only). -/
inductive CompileOutcome where
  | ok
  | syntaxErr (etype : String) (msg : String) (lineno : Option Nat)
      (offset : Option Nat)
  | otherErr (etype : String) (msg : String)
  deriving Repr, DecidableEq

/-- The `error_in_exec` payload of a cell result: exception class
name, message, and the `lineno` / `offset` attributes when they exist. -/
structure ExecErr where
  etype : String
  msg : String
  lineno : Option Nat
  offset : Option Nat
  deriving Repr, DecidableEq

/-- The result object of `shell.run_cell`. -/
structure CellResult where
  success : Bool
  error_in_exec : Option ExecErr
  deriving Repr, DecidableEq

/-- One call of the cell oracle: the cell returned a result object, or
raised (second except clause), each with the shell state afterwards. -/
inductive RunCellOutcome (σ : Type) where
  | returned (s : σ) (r : CellResult)
  | raised (s : σ) (etype : String) (msg : String)
  deriving DecidableEq

/-- A result row of `run` / `run_parallel`. -/
structure RunRow where
  file : SysPath
  block_index : Nat
  label : Option (List Char)
  mode : String
  ok : Bool
  error_type : Option String
  error_message : Option String
  lineno : Option Nat
  col_offset : Option Nat
  deriving Repr, DecidableEq

/-- Column schema of `run` and `run_parallel` result frames. -/
def runColumns : List String :=
  ["file", "block_index", "label", "mode", "ok", "error_type",
   "error_message", "lineno", "col_offset"]

/-- Loop body of `run` in syntax mode (lines 289-299): compile only,
catching `SyntaxError` (with line and column) and any other exception. -/
def syntaxRowOf (compileFn : SysPath → List Char → CompileOutcome)
    (base : SysPath) (b : CodeBlock) : RunRow :=
  match compileFn b.file b.code with
  | .ok =>
    ⟨relTo base b.file, b.block_index, b.label, "syntax", true,
     none, none, none, none⟩
  | .syntaxErr et m l c =>
    ⟨relTo base b.file, b.block_index, b.label, "syntax", false,
     some et, some m, l, c⟩
  | .otherErr et m =>
    ⟨relTo base b.file, b.block_index, b.label, "syntax", false,
     some et, some m, none, none⟩

/-- Loop body of `run` in exec mode (lines 301-316): run the cell
against the shell, record success or the captured error, and hand the
(possibly partially updated) shell state to the next block. -/
def execRowOf {σ : Type} (runCell : σ → List Char → RunCellOutcome σ)
    (base : SysPath) (s : σ) (b : CodeBlock) : σ × RunRow :=
  match runCell s b.code with
  | .returned s2 r =>
    if r.success then
      (s2, ⟨relTo base b.file, b.block_index, b.label, "exec", true,
            none, none, none, none⟩)
    else
      match r.error_in_exec with
      | some e =>
        (s2, ⟨relTo base b.file, b.block_index, b.label, "exec", false,
              some e.etype, some e.msg, e.lineno, e.offset⟩)
      | none =>
        (s2, ⟨relTo base b.file, b.block_index, b.label, "exec", false,
              none, none, none, none⟩)
  | .raised s2 et m =>
    (s2, ⟨relTo base b.file, b.block_index, b.label, "exec", false,
          some et, some m, none, none⟩)

/-- The `for block in blocks` loop of `run`, threading the shell state
through exec mode. -/
def runLoop {σ : Type} (mode : String)
    (compileFn : SysPath → List Char → CompileOutcome)
    (runCell : σ → List Char → RunCellOutcome σ)
    (base : SysPath) : σ → List CodeBlock → List RunRow
  | _, [] => []
  | s, b :: rest =>
    if mode = "syntax" then
      syntaxRowOf compileFn base b ::
        runLoop mode compileFn runCell base s rest
    else
      let p := execRowOf runCell base s b
      p.2 :: runLoop mode compileFn runCell base p.1 rest

/-- `QuartoPyTest.run`: validate all blocks in one process.  The
`ValueError` for a bad mode is the `Except.error` branch; the
matplotlib backend switch and `InteractiveShell.instance()` are the
external `initShell` state. -/
def run {σ : Type} (compileFn : SysPath → List Char → CompileOutcome)
    (initShell : σ) (runCell : σ → List Char → RunCellOutcome σ)
    (base : SysPath) (srcs : List Document) (modeStr : String) :
    Except String (DataFrame RunRow) :=
  let mode := (pyLower modeStr.toList).asString
  if mode = "syntax" ∨ mode = "exec" then
    let blocks := collectBlockObjects srcs
    let records := runLoop mode compileFn runCell base initShell blocks
    if records.isEmpty then .ok ⟨runColumns, []⟩
    else .ok ⟨runColumns, records⟩
  else .error "mode must be 'syntax' or 'exec'"

/-! ## pytest_qmd.py: `run_parallel`

The external pieces are modelled as oracles: `resolve` is the
filesystem's `Path.resolve`, and `rcOf` gives the exit code of running
`ipython script` for a script path.  The engine's returned dict maps
every materialized script to its recorded exit code — the pool model
below proves every enqueued script is processed exactly once. -/

/-- The generic per-chapter failure message of `run_parallel`. -/
def genericParallelMsg (rc : Int) : String :=
  "ipython exited with code " ++ toString rc ++ " for chapter"

/-- The per-block reconciliation row of `run_parallel` (lines 524-546):
look up the block's file in the exit-code map, default 0; non-zero
turns into the one generic SubprocessError; no line/column ever. -/
def parallelRowOf (rcByQmd : List (SysPath × Int)) (base : SysPath)
    (b : CodeBlock) : RunRow :=
  let rc := (dictGet rcByQmd b.file).getD 0
  ⟨relTo base b.file, b.block_index, b.label, "exec-parallel",
   rc == 0,
   if rc == 0 then none else some "SubprocessError",
   if rc == 0 then none else some (genericParallelMsg rc),
   none, none⟩

/-- The script list of `run_parallel`: one per manifest row. -/
def scriptsOf (outputDir : SysPath) (rows : List ManifestRow) :
    List SysPath :=
  rows.map (fun r => joinPath outputDir r.py_file)

/-- The `qmd_for_script` dict of `run_parallel`: script path to
resolved document path. -/
def qmdForScriptOf (base outputDir : SysPath) (resolve : SysPath → SysPath)
    (rows : List ManifestRow) : List (SysPath × SysPath) :=
  rows.foldl (fun m r =>
    dictInsert m (joinPath outputDir r.py_file)
      (resolve (joinPath base r.file))) []

/-- The engine's results dict: each script keyed to its recorded exit
code (every enqueued script runs exactly once; see the pool model). -/
def resultsOf (rcOf : SysPath → Int) (scripts : List SysPath) :
    List (SysPath × Int) :=
  scripts.foldl (fun m s => dictInsert m s (rcOf s)) []

/-- The `rc_by_qmd` map of `run_parallel`: resolved document path to
exit code, built by iterating the results dict. -/
def rcByQmdOf (qmdForScript : List (SysPath × SysPath))
    (results : List (SysPath × Int)) : List (SysPath × Int) :=
  results.foldl
    (fun m p => dictInsert m ((dictGet qmdForScript p.1).getD []) p.2) []

/-- `QuartoPyTest.run_parallel`: materialize, run every chapter script
(each exactly once, per the pool model), key the exit codes by resolved
document path, then reconcile per block.  The `.getD []` on the
`qmd_for_script` lookup models a dict access that cannot fail: the
results dict is keyed by the very scripts that populated
`qmd_for_script`. -/
def run_parallel (base : SysPath) (srcs : List Document)
    (outputDir : SysPath) (resolve : SysPath → SysPath)
    (rcOf : SysPath → Int) : DataFrame RunRow :=
  let ex := extract base srcs outputDir
  if ex.1.rows.isEmpty then ⟨runColumns, []⟩
  else
    let scripts := scriptsOf outputDir ex.1.rows
    let qmdForScript := qmdForScriptOf base outputDir resolve ex.1.rows
    let results := resultsOf rcOf scripts
    let rcByQmd := rcByQmdOf qmdForScript results
    let blocks := collectBlockObjects srcs
    ⟨runColumns, blocks.map (parallelRowOf rcByQmd base)⟩

/-! ## The parallel worker pool (`_run_scripts_parallel`)

The asyncio engine is modelled as a transition system.  A state holds
the FIFO queue of pending scripts, one slot per worker (`some s` while
the worker's `ipython` subprocess for `s` is alive, between
`create_subprocess_exec` and the return of `communicate`), and the
completed scripts.  `dequeue` is `queue.get` plus the subprocess spawn;
`complete` is subprocess exit, result recording and `task_done`.
`queue.join` returns exactly in the drained states; post-drain worker
cancellation does not change any of the three components. -/

/-- State of the parallel engine. -/
structure PoolState where
  queue : List SysPath
  workers : List (Option SysPath)
  done : List SysPath
  deriving Repr, DecidableEq

/-- The scripts whose subprocess is currently alive. -/
def runningOf (st : PoolState) : List SysPath := st.workers.filterMap id

/-- One scheduler step of the engine. -/
inductive PoolStep : PoolState → PoolState → Prop
  | dequeue (st : PoolState) (i : Nat) (s : SysPath) (rest : List SysPath)
      (hq : st.queue = s :: rest) (hi : i < st.workers.length)
      (hw : st.workers.get ⟨i, hi⟩ = none) :
      PoolStep st ⟨rest, st.workers.set i (some s), st.done⟩
  | complete (st : PoolState) (i : Nat) (s : SysPath)
      (hi : i < st.workers.length) (hw : st.workers.get ⟨i, hi⟩ = some s) :
      PoolStep st ⟨st.queue, st.workers.set i none, s :: st.done⟩

/-- Initial state: every script pre-loaded in the queue (the
`put_nowait` loop), `n` idle workers, nothing done. -/
def initPool (scripts : List SysPath) (n : Nat) : PoolState :=
  ⟨scripts, List.replicate n none, []⟩

/-- Reachability from the initial state. -/
def PoolReach (scripts : List SysPath) (n : Nat) (st : PoolState) : Prop :=
  Relation.ReflTransGen PoolStep (initPool scripts n) st

/-- The drained barrier on which `queue.join` returns: empty queue and
every worker idle at its `queue.get`. -/
def Drained (st : PoolState) : Prop :=
  st.queue = [] ∧ ∀ w ∈ st.workers, w = none

/-- Termination measure of the engine: every scheduler step strictly
decreases it. -/
def poolMeasure (st : PoolState) : Nat :=
  2 * st.queue.length + (runningOf st).length

/-! ## Lemmas about the extractor -/

/-- `enumerate(xs, start=i)`. -/
def enumFrom {α : Type} : Nat → List α → List (Nat × α)
  | _, [] => []
  | i, x :: rest => (i, x) :: enumFrom (i + 1) rest

/-- The concrete three-fence document of the spec's C2 example:
python, bash, python. -/
def c2doc : List Char :=
  ("```" ++ "{python}\na = 1\n```" ++ "\n```" ++ "{bash}\nls\n```" ++
   "\n```" ++ "{python}\nb = 2\n```" ++ "\n").toList

/-- The shell state after sequentially evaluating a list of blocks
(exec mode). -/
def execStateAfter {σ : Type} (runCell : σ → List Char → RunCellOutcome σ)
    (base : SysPath) : σ → List CodeBlock → σ
  | s, [] => s
  | s, b :: rest =>
    execStateAfter runCell base (execRowOf runCell base s b).1 rest

/-- A concrete cell oracle used by witnesses: the shell state counts
evaluated cells; `x = 1` succeeds, everything else raises a NameError. -/
def rcStub : Nat → List Char → RunCellOutcome Nat := fun s code =>
  if code = "x = 1".toList then .returned (s + 1) ⟨true, none⟩
  else .raised (s + 1) "NameError" "name x is not defined"

/-- A concrete compile oracle used by witnesses: `def f(:` raises a
SyntaxError, everything else compiles. -/
def compileStub : SysPath → List Char → CompileOutcome := fun _ code =>
  if code = "def f(:".toList then
    .syntaxErr "SyntaxError" "invalid syntax" (some 1) (some 8)
  else .ok

/-- A concrete block used by witnesses. -/
def blockB : CodeBlock :=
  ⟨["d", "ch1.qmd"], 1, pythonTag, none, none, "print(x)".toList,
   some 2, some 2⟩

/-- A concrete block with unbalanced syntax, used by witnesses. -/
def blockS : CodeBlock :=
  ⟨["d", "ch1.qmd"], 1, pythonTag, none, none, "def f(:".toList,
   some 2, some 2⟩

/-- A concrete well-formed block, used by witnesses. -/
def blockOk : CodeBlock :=
  ⟨["d", "ch1.qmd"], 2, pythonTag, none, none, "x = 1".toList,
   some 5, some 5⟩

/-- The documents that get a chapter script: those with at least one
qualifying (python) block. -/
def qualifying (srcs : List Document) : List Document :=
  srcs.filter (fun d => !(pyBlocksOf d).isEmpty)

/-- The chapter script path `extract` derives for a document. -/
def scriptFor (base outputDir : SysPath) (d : Document) : SysPath :=
  withSuffixPy (joinPath outputDir (relTo base d.path))

/-- The manifest row `extract` derives for a qualifying document. -/
def manifestRowFor (base outputDir : SysPath) (d : Document) : ManifestRow :=
  ⟨relTo base d.path, relTo outputDir (scriptFor base outputDir d),
   (pyBlocksOf d).length⟩

/-- Concrete two-chapter project used by witnesses: ch1 has two python
blocks, ch2 has one. -/
def doc1 : Document :=
  ⟨["proj", "ch1.qmd"],
   ("```" ++ "{python}\nx = 1\n```" ++ "\n```" ++
    "{python}\nprint(x)\n```" ++ "\n").toList⟩

/-- Second concrete chapter. -/
def doc2 : Document :=
  ⟨["proj", "ch2.qmd"], ("```" ++ "{python}\nboom\n```" ++ "\n").toList⟩

/-- A document with no python blocks, used by witnesses. -/
def docNoPy : Document :=
  ⟨["proj", "ch3.qmd"], ("```" ++ "{bash}\nls\n```" ++ "\n").toList⟩

/-- The concrete project sources. -/
def projSrcs : List Document := [doc1, doc2]

/-- The concrete project root. -/
def projBase : SysPath := ["proj"]

/-- The concrete output directory. -/
def projOut : SysPath := ["out"]

/-- Exit codes for the concrete project: ch2's chapter script fails
with exit code 1, everything else succeeds. -/
def rcStubP : SysPath → Int := fun s => if s = ["out", "ch2.py"] then 1 else 0

/-- The reconciliation map of the concrete project (resolve = id). -/
def rcmapP : List (SysPath × Int) :=
  rcByQmdOf
    (qmdForScriptOf projBase projOut id
      (extract projBase projSrcs projOut).1.rows)
    (resultsOf rcStubP
      (scriptsOf projOut (extract projBase projSrcs projOut).1.rows))

/-- A path resolver that maps every document path away from itself,
used by the C8 witness. -/
def resolveShift : SysPath → SysPath := fun p => "resolved" :: p

/-- The reconciliation map of the concrete project under
`resolveShift`: its keys are resolved paths, so raw block files miss. -/
def rcmapShift : List (SysPath × Int) :=
  rcByQmdOf
    (qmdForScriptOf projBase projOut resolveShift
      (extract projBase projSrcs projOut).1.rows)
    (resultsOf rcStubP
      (scriptsOf projOut (extract projBase projSrcs projOut).1.rows))

/-- The single python block of ch2. -/
def blockBoom : CodeBlock :=
  ⟨["proj", "ch2.qmd"], 1, "python".toList, none, none, "boom".toList,
   some 2, some 2⟩

/-- A concrete project with one two-block chapter and one chapter
holding no python block, used by the materializer witness. -/
def projSrcs2 : List Document := [doc1, docNoPy]

/-- The artifact `extract` derives for a qualifying document. -/
def artifactFor (base outputDir : SysPath) (d : Document) : Artifact :=
  ⟨scriptFor base outputDir d, chapterText (pyBlocksOf d)⟩

theorem extractLoop_eq_enum (file : SysPath) (lang : Option (List Char)) :
    ∀ (i : Nat) (fs : List RawFence),
    extractLoop file lang i fs =
      ((enumFrom i fs).filter (fun p => keepFence lang p.2)).map
        (fun p => mkBlock file p.1 p.2) := by
  intro i fs
  induction fs generalizing i with
  | nil => rfl
  | cons f rest ih =>
    simp only [extractLoop, enumFrom, List.filter_cons]
    by_cases h : keepFence lang f
    · simp [h, ih (i + 1)]
    · simp [h, ih (i + 1)]

theorem le_fst_of_mem_enumFrom {α : Type} :
    ∀ (i : Nat) (l : List α) (p : Nat × α), p ∈ enumFrom i l → i ≤ p.1 := by
  intro i l
  induction l generalizing i with
  | nil => intro p hp; cases hp
  | cons x rest ih =>
    intro p hp
    rw [enumFrom, List.mem_cons] at hp
    rcases hp with rfl | hp
    · exact Nat.le_refl _
    · exact Nat.le_of_succ_le (ih (i + 1) p hp)

theorem pairwise_enumFrom {α : Type} :
    ∀ (i : Nat) (l : List α),
    List.Pairwise (fun p q : Nat × α => p.1 < q.1) (enumFrom i l) := by
  intro i l
  induction l generalizing i with
  | nil => exact List.Pairwise.nil
  | cons x rest ih =>
    refine List.Pairwise.cons ?_ (ih (i + 1))
    intro q hq
    exact Nat.lt_of_succ_le (le_fst_of_mem_enumFrom (i + 1) rest q hq)

theorem block_index_mkBlock (file : SysPath) (i : Nat) (f : RawFence) :
    (mkBlock file i f).block_index = i := rfl

theorem execRowOf_key {σ : Type} (runCell : σ → List Char → RunCellOutcome σ)
    (base : SysPath) (s : σ) (b : CodeBlock) :
    (execRowOf runCell base s b).2.file = relTo base b.file ∧
    (execRowOf runCell base s b).2.block_index = b.block_index := by
  unfold execRowOf
  cases runCell s b.code with
  | returned s2 r =>
    rcases r with ⟨succ, err⟩
    cases succ <;> cases err <;> simp
  | raised s2 et m => simp

theorem runLoop_exec_key {σ : Type}
    (compileFn : SysPath → List Char → CompileOutcome)
    (runCell : σ → List Char → RunCellOutcome σ) (base : SysPath) :
    ∀ (s : σ) (bs : List CodeBlock),
    (runLoop "exec" compileFn runCell base s bs).map
        (fun r => (r.file, r.block_index)) =
      bs.map (fun b => (relTo base b.file, b.block_index)) := by
  intro s bs
  induction bs generalizing s with
  | nil => rfl
  | cons b rest ih =>
    simp only [runLoop]
    rw [if_neg (by decide)]
    simp only [List.map_cons]
    rw [ih]
    have h := execRowOf_key runCell base s b
    rw [h.1, h.2]

theorem runLoop_syntax_eq_map {σ : Type}
    (compileFn : SysPath → List Char → CompileOutcome)
    (runCell : σ → List Char → RunCellOutcome σ) (base : SysPath) :
    ∀ (s : σ) (bs : List CodeBlock),
    runLoop "syntax" compileFn runCell base s bs =
      bs.map (syntaxRowOf compileFn base) := by
  intro s bs
  induction bs generalizing s with
  | nil => rfl
  | cons b rest ih => simp [runLoop, ih]

theorem run_exec_eq {σ : Type}
    (compileFn : SysPath → List Char → CompileOutcome) (s0 : σ)
    (runCell : σ → List Char → RunCellOutcome σ) (base : SysPath)
    (srcs : List Document) :
    run compileFn s0 runCell base srcs "exec" =
      .ok ⟨runColumns,
        runLoop "exec" compileFn runCell base s0
          (collectBlockObjects srcs)⟩ := by
  have hmode : (pyLower ['e', 'x', 'e', 'c']).asString = "exec" := by decide
  cases h : runLoop "exec" compileFn runCell base s0
      (collectBlockObjects srcs) with
  | nil => simp [run, hmode, h]
  | cons r rest => simp [run, hmode, h]

theorem run_syntax_eq {σ : Type}
    (compileFn : SysPath → List Char → CompileOutcome) (s0 : σ)
    (runCell : σ → List Char → RunCellOutcome σ) (base : SysPath)
    (srcs : List Document) :
    run compileFn s0 runCell base srcs "syntax" =
      .ok ⟨runColumns,
        (collectBlockObjects srcs).map (syntaxRowOf compileFn base)⟩ := by
  have hmode :
      (pyLower ['s', 'y', 'n', 't', 'a', 'x']).asString = "syntax" := by
    decide
  have hs := runLoop_syntax_eq_map compileFn runCell base s0
    (collectBlockObjects srcs)
  cases h : (collectBlockObjects srcs).map (syntaxRowOf compileFn base) with
  | nil => simp [run, hmode, hs, h]
  | cons r rest => simp [run, hmode, hs, h]

end QuartoTools

/-- C2: for every document text and language filter, each fenced region
— matching the filter or not — consumes the next sequential 1-based
index and only filter-matching fences are emitted; in particular a
[python, bash, python] document filtered to python emits block_index
values [1, 3]. -/
theorem QuartoTools.blockIndex_counts_all_fences :
    (∀ (text : List Char) (file : QuartoTools.SysPath)
       (lang : Option (List Char)),
      QuartoTools.extract_code_blocks text file lang =
        ((QuartoTools.enumFrom 1 (QuartoTools.rawFences text)).filter
          (fun p => QuartoTools.keepFence lang p.2)).map
          (fun p => QuartoTools.mkBlock file p.1 p.2)) ∧
    (QuartoTools.extract_code_blocks QuartoTools.c2doc []
      (some QuartoTools.pythonTag)).map (fun b => b.block_index) = [1, 3] := by
  constructor
  · intro text file lang
    exact QuartoTools.extractLoop_eq_enum file lang 1
      (QuartoTools.rawFences text)
  · decide

/-- C7: extraction is a pure function of the document text (repeated
extraction yields the identical block sequence), and emitted
block_index values are strictly increasing within a document. -/
theorem QuartoTools.extraction_pure_and_indices_increasing :
    ∀ (text : List Char) (file : QuartoTools.SysPath)
      (lang : Option (List Char)),
    QuartoTools.extract_code_blocks text file lang =
      QuartoTools.extract_code_blocks text file lang ∧
    List.Pairwise (fun a b => a < b)
      ((QuartoTools.extract_code_blocks text file lang).map
        (fun b => b.block_index)) := by
  intro text file lang
  refine ⟨rfl, ?_⟩
  rw [QuartoTools.extract_code_blocks, QuartoTools.extractLoop_eq_enum]
  rw [List.map_map]
  have h1 := QuartoTools.pairwise_enumFrom 1 (QuartoTools.rawFences text)
  have h2 := h1.filter (fun p => QuartoTools.keepFence lang p.2)
  rw [List.pairwise_map]
  exact h2.imp (fun h => h)

/-- C10: the language filter is case-insensitive — filters equal up to
lowercasing extract identical block sequences, and a fence whose tag
matches the filter up to case is emitted. -/
theorem QuartoTools.lang_filter_case_insensitive :
    (∀ (text : List Char) (file : QuartoTools.SysPath) (s t : List Char),
      QuartoTools.pyLower s = QuartoTools.pyLower t →
      QuartoTools.extract_code_blocks text file (some s) =
        QuartoTools.extract_code_blocks text file (some t)) ∧
    (∀ (text : List Char) (file : QuartoTools.SysPath) (s : List Char)
       (p : Nat × QuartoTools.RawFence),
      p ∈ QuartoTools.enumFrom 1 (QuartoTools.rawFences text) →
      QuartoTools.pyLower p.2.lang = QuartoTools.pyLower s →
      QuartoTools.mkBlock file p.1 p.2 ∈
        QuartoTools.extract_code_blocks text file (some s)) := by
  constructor
  · intro text file s t h
    rw [QuartoTools.extract_code_blocks, QuartoTools.extract_code_blocks,
      QuartoTools.extractLoop_eq_enum, QuartoTools.extractLoop_eq_enum]
    congr 1
    apply List.filter_congr
    intro p _
    simp only [QuartoTools.keepFence, h]
  · intro text file s p hp hl
    rw [QuartoTools.extract_code_blocks, QuartoTools.extractLoop_eq_enum]
    refine List.mem_map_of_mem _ ?_
    refine List.mem_filter.mpr ⟨hp, ?_⟩
    simp only [QuartoTools.keepFence, hl, beq_self_eq_true]

/-- Witness for C10 at concrete inputs: the filters "Python" and
"python" agree on the three-fence document, and the first (python)
fence is emitted under the filter "PYTHON". -/
theorem QuartoTools.lang_filter_case_insensitive_witness :
    (QuartoTools.pyLower "Python".toList =
        QuartoTools.pyLower "python".toList ∧
      QuartoTools.extract_code_blocks QuartoTools.c2doc []
          (some "Python".toList) =
        QuartoTools.extract_code_blocks QuartoTools.c2doc []
          (some "python".toList)) ∧
    ((1, QuartoTools.RawFence.mk "python".toList "a = 1\n".toList 1) ∈
        QuartoTools.enumFrom 1 (QuartoTools.rawFences QuartoTools.c2doc) ∧
      QuartoTools.mkBlock [] 1
          (QuartoTools.RawFence.mk "python".toList "a = 1\n".toList 1) ∈
        QuartoTools.extract_code_blocks QuartoTools.c2doc []
          (some "PYTHON".toList)) :=
  ⟨⟨by decide,
    QuartoTools.lang_filter_case_insensitive.1 QuartoTools.c2doc []
      "Python".toList "python".toList (by decide)⟩,
   ⟨by decide,
    QuartoTools.lang_filter_case_insensitive.2 QuartoTools.c2doc []
      "PYTHON".toList
      (1, QuartoTools.RawFence.mk "python".toList "a = 1\n".toList 1)
      (by decide) (by decide)⟩⟩

/-- C3: in exec mode a failure raised while evaluating one block is
captured into that block's result row and aborts neither the run nor
the session: the remaining blocks still execute against the updated
shell state, and the output holds exactly one row per block in
extraction order. -/
theorem QuartoTools.exec_failure_does_not_abort :
    ∀ (σ : Type)
      (compileFn : QuartoTools.SysPath → List Char → QuartoTools.CompileOutcome)
      (runCell : σ → List Char → QuartoTools.RunCellOutcome σ)
      (base : QuartoTools.SysPath) (srcs : List QuartoTools.Document) (s0 : σ),
    (∃ df, QuartoTools.run compileFn s0 runCell base srcs "exec" =
        Except.ok df ∧
      df.rows.map (fun r => (r.file, r.block_index)) =
        (QuartoTools.collectBlockObjects srcs).map
          (fun b => (QuartoTools.relTo base b.file, b.block_index))) ∧
    (∀ (s s2 : σ) (b : QuartoTools.CodeBlock)
       (rest : List QuartoTools.CodeBlock) (et m : String),
      runCell s b.code = .raised s2 et m →
      QuartoTools.runLoop "exec" compileFn runCell base s (b :: rest) =
        ⟨QuartoTools.relTo base b.file, b.block_index, b.label, "exec",
         false, some et, some m, none, none⟩ ::
        QuartoTools.runLoop "exec" compileFn runCell base s2 rest) := by
  intro σ compileFn runCell base srcs s0
  constructor
  · exact ⟨_, QuartoTools.run_exec_eq compileFn s0 runCell base srcs,
      QuartoTools.runLoop_exec_key compileFn runCell base s0 _⟩
  · intro s s2 b rest et m h
    simp only [QuartoTools.runLoop]
    rw [if_neg (by decide)]
    simp [QuartoTools.execRowOf, h]

/-- Witness for C3: the stub cell oracle raises a NameError on
`print(x)`, the row records it, and the loop continues on the advanced
shell state. -/
theorem QuartoTools.exec_failure_does_not_abort_witness :
    QuartoTools.rcStub 0 QuartoTools.blockB.code =
        .raised 1 "NameError" "name x is not defined" ∧
    QuartoTools.runLoop "exec" QuartoTools.compileStub QuartoTools.rcStub
        [] 0 [QuartoTools.blockB] =
      ⟨QuartoTools.relTo [] QuartoTools.blockB.file,
       QuartoTools.blockB.block_index, QuartoTools.blockB.label, "exec",
       false, some "NameError", some "name x is not defined", none, none⟩ ::
      QuartoTools.runLoop "exec" QuartoTools.compileStub QuartoTools.rcStub
        [] 1 [] :=
  ⟨by decide,
   (QuartoTools.exec_failure_does_not_abort Nat QuartoTools.compileStub
      QuartoTools.rcStub [] [] 0).2 0 1 QuartoTools.blockB []
      "NameError" "name x is not defined" (by decide)⟩

/-- C5: syntax mode only compiles and never executes — its output does
not depend on the shell oracle or state at all; the run returns a
result frame (never raises), with one row per block built by the
compile-only row builder; a compile success yields ok=True and a
SyntaxError yields ok=False with the recorded kind, message, line and
column. -/
theorem QuartoTools.syntax_mode_compile_only :
    ∀ (σ σ2 : Type)
      (compileFn : QuartoTools.SysPath → List Char → QuartoTools.CompileOutcome)
      (rc1 : σ → List Char → QuartoTools.RunCellOutcome σ)
      (rc2 : σ2 → List Char → QuartoTools.RunCellOutcome σ2)
      (s1 : σ) (s2 : σ2) (base : QuartoTools.SysPath)
      (srcs : List QuartoTools.Document),
    (QuartoTools.run compileFn s1 rc1 base srcs "syntax" =
      QuartoTools.run compileFn s2 rc2 base srcs "syntax") ∧
    (∃ df, QuartoTools.run compileFn s1 rc1 base srcs "syntax" =
        Except.ok df ∧
      df.rows = (QuartoTools.collectBlockObjects srcs).map
        (QuartoTools.syntaxRowOf compileFn base)) ∧
    (∀ b : QuartoTools.CodeBlock,
      (compileFn b.file b.code = .ok →
        QuartoTools.syntaxRowOf compileFn base b =
          ⟨QuartoTools.relTo base b.file, b.block_index, b.label, "syntax",
           true, none, none, none, none⟩) ∧
      (∀ (et m : String) (l c : Option Nat),
        compileFn b.file b.code = .syntaxErr et m l c →
        QuartoTools.syntaxRowOf compileFn base b =
          ⟨QuartoTools.relTo base b.file, b.block_index, b.label, "syntax",
           false, some et, some m, l, c⟩)) := by
  intro σ σ2 compileFn rc1 rc2 s1 s2 base srcs
  refine ⟨?_, ⟨_, QuartoTools.run_syntax_eq compileFn s1 rc1 base srcs,
    rfl⟩, ?_⟩
  · rw [QuartoTools.run_syntax_eq, QuartoTools.run_syntax_eq]
  · intro b
    constructor
    · intro h
      unfold QuartoTools.syntaxRowOf
      rw [h]
    · intro et m l c h
      unfold QuartoTools.syntaxRowOf
      rw [h]

/-- Witness for C5: the stub compile oracle fails on `def f(:` with a
SyntaxError (recorded with message, line and column) and succeeds on
`x = 1` (ok row). -/
theorem QuartoTools.syntax_mode_compile_only_witness :
    (QuartoTools.compileStub QuartoTools.blockS.file QuartoTools.blockS.code =
        .syntaxErr "SyntaxError" "invalid syntax" (some 1) (some 8) ∧
      QuartoTools.syntaxRowOf QuartoTools.compileStub [] QuartoTools.blockS =
        ⟨QuartoTools.relTo [] QuartoTools.blockS.file,
         QuartoTools.blockS.block_index, QuartoTools.blockS.label, "syntax",
         false, some "SyntaxError", some "invalid syntax", some 1, some 8⟩) ∧
    (QuartoTools.compileStub QuartoTools.blockOk.file
        QuartoTools.blockOk.code = .ok ∧
      QuartoTools.syntaxRowOf QuartoTools.compileStub [] QuartoTools.blockOk =
        ⟨QuartoTools.relTo [] QuartoTools.blockOk.file,
         QuartoTools.blockOk.block_index, QuartoTools.blockOk.label, "syntax",
         true, none, none, none, none⟩) :=
  ⟨⟨by decide,
    ((QuartoTools.syntax_mode_compile_only Nat Nat QuartoTools.compileStub
        QuartoTools.rcStub QuartoTools.rcStub 0 0 [] []).2.2
      QuartoTools.blockS).2 "SyntaxError" "invalid syntax" (some 1) (some 8)
      (by decide)⟩,
   ⟨by decide,
    ((QuartoTools.syntax_mode_compile_only Nat Nat QuartoTools.compileStub
        QuartoTools.rcStub QuartoTools.rcStub 0 0 [] []).2.2
      QuartoTools.blockOk).1 (by decide)⟩⟩

/-- C9: with zero qualifying blocks every public operation returns an
empty result that still carries its full fixed column schema:
`collect_blocks`, `run` in both modes and `run_parallel` return empty
frames with their documented columns, and `extract` returns the empty
manifest with columns file/py_file/blocks (and writes nothing). -/
theorem QuartoTools.empty_project_keeps_schema :
    ∀ (σ : Type)
      (compileFn : QuartoTools.SysPath → List Char → QuartoTools.CompileOutcome)
      (runCell : σ → List Char → QuartoTools.RunCellOutcome σ) (s0 : σ)
      (base outputDir : QuartoTools.SysPath)
      (resolve : QuartoTools.SysPath → QuartoTools.SysPath)
      (rcOf : QuartoTools.SysPath → Int) (srcs : List QuartoTools.Document),
    QuartoTools.collectBlockObjects srcs = [] →
    QuartoTools.collect_blocks base srcs =
        ⟨QuartoTools.collectColumns, []⟩ ∧
      QuartoTools.run compileFn s0 runCell base srcs "syntax" =
        Except.ok ⟨QuartoTools.runColumns, []⟩ ∧
      QuartoTools.run compileFn s0 runCell base srcs "exec" =
        Except.ok ⟨QuartoTools.runColumns, []⟩ ∧
      QuartoTools.extract base srcs outputDir =
        (⟨QuartoTools.manifestColumns, []⟩, []) ∧
      QuartoTools.run_parallel base srcs outputDir resolve rcOf =
        ⟨QuartoTools.runColumns, []⟩ := by
  intro σ compileFn runCell s0 base outputDir resolve rcOf srcs h
  have hx : QuartoTools.extract base srcs outputDir =
      (⟨QuartoTools.manifestColumns, []⟩, []) := by
    simp [QuartoTools.extract, h]
  refine ⟨by simp [QuartoTools.collect_blocks, h], ?_, ?_, hx, ?_⟩
  · rw [QuartoTools.run_syntax_eq, h]; rfl
  · rw [QuartoTools.run_exec_eq, h]; rfl
  · simp [QuartoTools.run_parallel, hx]

/-- Witness for C9 on the empty project. -/
theorem QuartoTools.empty_project_keeps_schema_witness :
    QuartoTools.collectBlockObjects [] = [] ∧
    (QuartoTools.collect_blocks [] [] = ⟨QuartoTools.collectColumns, []⟩ ∧
      QuartoTools.run QuartoTools.compileStub 0 QuartoTools.rcStub [] []
          "syntax" = Except.ok ⟨QuartoTools.runColumns, []⟩ ∧
      QuartoTools.run QuartoTools.compileStub 0 QuartoTools.rcStub [] []
          "exec" = Except.ok ⟨QuartoTools.runColumns, []⟩ ∧
      QuartoTools.extract [] [] [] =
        (⟨QuartoTools.manifestColumns, []⟩, []) ∧
      QuartoTools.run_parallel [] [] [] id (fun _ => 0) =
        ⟨QuartoTools.runColumns, []⟩) :=
  ⟨rfl, QuartoTools.empty_project_keeps_schema Nat QuartoTools.compileStub
    QuartoTools.rcStub 0 [] [] id (fun _ => 0) [] rfl⟩

namespace QuartoTools

/-! ## Dictionary lemmas -/

theorem dictGet_dictInsert_self {α : Type} (m : List (SysPath × α))
    (k : SysPath) (v : α) : dictGet (dictInsert m k v) k = some v := by
  induction m with
  | nil => simp [dictInsert, dictGet]
  | cons e rest ih =>
    rcases e with ⟨k2, v2⟩
    by_cases h : k2 = k
    · simp [dictInsert, dictGet, h]
    · simp [dictInsert, dictGet, h, ih]

theorem dictGet_dictInsert_other {α : Type} (m : List (SysPath × α))
    (k k2 : SysPath) (v : α) (h : k2 ≠ k) :
    dictGet (dictInsert m k2 v) k = dictGet m k := by
  induction m with
  | nil => simp [dictInsert, dictGet, h]
  | cons e rest ih =>
    rcases e with ⟨k3, v3⟩
    by_cases h3 : k3 = k2
    · subst h3
      simp [dictInsert, dictGet, h]
    · by_cases hk : k3 = k
      · simp [dictInsert, dictGet, h3, hk, Ne.symm h]
      · simp [dictInsert, dictGet, h3, hk, ih]

theorem dictInsert_newKey {α : Type} (m : List (SysPath × α)) (k : SysPath)
    (v : α) (h : ∀ e ∈ m, e.1 ≠ k) : dictInsert m k v = m ++ [(k, v)] := by
  induction m with
  | nil => rfl
  | cons e rest ih =>
    rcases e with ⟨k2, v2⟩
    rw [dictInsert, if_neg (h (k2, v2) (List.mem_cons_self _ _)),
      ih (fun e he => h e (List.mem_cons_of_mem _ he))]
    rfl

theorem dictGet_foldInsert_notin {ι α : Type} (kf : ι → SysPath)
    (vf : ι → α) :
    ∀ (items : List ι) (m : List (SysPath × α)) (k : SysPath),
    (∀ x ∈ items, kf x ≠ k) →
    dictGet (items.foldl (fun m2 x => dictInsert m2 (kf x) (vf x)) m) k =
      dictGet m k := by
  intro items
  induction items with
  | nil => intro m k _; rfl
  | cons x rest ih =>
    intro m k h
    simp only [List.foldl_cons]
    rw [ih _ k (fun y hy => h y (List.mem_cons_of_mem x hy)),
      dictGet_dictInsert_other _ _ _ _ (h x (List.mem_cons_self x rest))]

theorem dictGet_foldInsert {ι α : Type} (kf : ι → SysPath) (vf : ι → α) :
    ∀ (items : List ι) (m : List (SysPath × α)) (x : ι),
    x ∈ items → (items.map kf).Nodup →
    dictGet (items.foldl (fun m2 y => dictInsert m2 (kf y) (vf y)) m)
      (kf x) = some (vf x) := by
  intro items
  induction items with
  | nil => intro m x hx; cases hx
  | cons y rest ih =>
    intro m x hx hnd
    simp only [List.map_cons, List.nodup_cons] at hnd
    rw [List.mem_cons] at hx
    simp only [List.foldl_cons]
    rcases hx with rfl | hx
    · have hni : ∀ z ∈ rest, kf z ≠ kf x := by
        intro z hz heq
        exact hnd.1 (heq ▸ List.mem_map_of_mem kf hz)
      rw [dictGet_foldInsert_notin kf vf rest _ (kf x) hni,
        dictGet_dictInsert_self]
    · exact ih _ x hx hnd.2

theorem foldInsert_eq_map {α : Type} (f : SysPath → α) :
    ∀ (ks : List SysPath) (m : List (SysPath × α)),
    (∀ k ∈ ks, ∀ e ∈ m, e.1 ≠ k) → ks.Nodup →
    ks.foldl (fun m2 k => dictInsert m2 k (f k)) m =
      m ++ ks.map (fun k => (k, f k)) := by
  intro ks
  induction ks with
  | nil => intro m _ _; simp
  | cons k rest ih =>
    intro m h hnd
    simp only [List.nodup_cons] at hnd
    simp only [List.foldl_cons]
    rw [dictInsert_newKey m k (f k) (h k (List.mem_cons_self _ _))]
    rw [ih (m ++ [(k, f k)]) ?_ hnd.2]
    · simp
    · intro k2 hk2 e he
      rcases List.mem_append.mp he with he1 | he2
      · exact h k2 (List.mem_cons_of_mem _ hk2) e he1
      · rw [List.mem_singleton.mp he2]
        intro hkk
        have hkk2 : k = k2 := hkk
        exact hnd.1 (by rw [hkk2]; exact hk2)

end QuartoTools

namespace QuartoTools

/-! ## Lemmas about blocks, grouping, sorting and paths -/

theorem file_of_mem_extract (text : List Char) (f : SysPath)
    (lang : Option (List Char)) (b : CodeBlock)
    (hb : b ∈ extract_code_blocks text f lang) : b.file = f := by
  rw [extract_code_blocks, extractLoop_eq_enum] at hb
  rcases List.mem_map.mp hb with ⟨p, _, rfl⟩
  rfl

theorem mem_collectBlockObjects (srcs : List Document) (b : CodeBlock)
    (hb : b ∈ collectBlockObjects srcs) :
    ∃ d ∈ srcs, b ∈ pyBlocksOf d ∧ b.file = d.path := by
  rw [collectBlockObjects, List.mem_flatMap] at hb
  rcases hb with ⟨d, hd, hbd⟩
  exact ⟨d, hd, hbd, file_of_mem_extract _ _ _ _ hbd⟩

theorem extract_pairwise_lt (text : List Char) (f : SysPath)
    (lang : Option (List Char)) :
    List.Pairwise (fun a b : CodeBlock => a.block_index < b.block_index)
      (extract_code_blocks text f lang) := by
  rw [extract_code_blocks, extractLoop_eq_enum, List.pairwise_map]
  exact ((pairwise_enumFrom 1 _).filter _).imp (fun h => h)

theorem insertByIdx_le (b : CodeBlock) (l : List CodeBlock)
    (h : ∀ c ∈ l, b.block_index ≤ c.block_index) :
    insertByIdx b l = b :: l := by
  cases l with
  | nil => rfl
  | cons c rest => rw [insertByIdx, if_pos (h c (List.mem_cons_self _ _))]

theorem sortByIdx_sorted (l : List CodeBlock)
    (h : List.Pairwise
      (fun a b : CodeBlock => a.block_index ≤ b.block_index) l) :
    sortByIdx l = l := by
  induction l with
  | nil => rfl
  | cons b rest ih =>
    rw [List.pairwise_cons] at h
    rw [sortByIdx, ih h.2]
    exact insertByIdx_le b rest h.1

theorem isPrefixOf_append (l t : List String) :
    l.isPrefixOf (l ++ t) = true := by
  induction l with
  | nil => simp [List.isPrefixOf]
  | cons a rest ih => simp [List.isPrefixOf, ih]

theorem relTo_append (base t : SysPath) : relTo base (base ++ t) = t := by
  rw [relTo, if_pos (isPrefixOf_append base t), List.drop_left]

theorem joinPath_relTo (base p : SysPath) (h : base <+: p) :
    joinPath base (relTo base p) = p := by
  rcases h with ⟨t, rfl⟩
  rw [relTo_append, joinPath]

theorem withSuffixPy_append (pre rel : SysPath) (h : rel ≠ []) :
    withSuffixPy (pre ++ rel) = pre ++ withSuffixPy rel := by
  rcases rel.eq_nil_or_concat with rfl | ⟨r0, name, rfl⟩
  · exact absurd rfl h
  simp only [List.concat_eq_append]
  rw [withSuffixPy, withSuffixPy]
  rw [show pre ++ (r0 ++ [name]) = (pre ++ r0) ++ [name] by simp]
  rw [List.getLast?_concat, List.getLast?_concat]
  rw [List.dropLast_concat, List.dropLast_concat]
  simp

theorem withSuffixPy_ne_nil (rel : SysPath) (h : rel ≠ []) :
    withSuffixPy rel ≠ [] := by
  rcases rel.eq_nil_or_concat with rfl | ⟨r0, name, rfl⟩
  · exact absurd rfl h
  simp only [List.concat_eq_append]
  rw [withSuffixPy, List.getLast?_concat, List.dropLast_concat]
  simp

end QuartoTools

namespace QuartoTools

/-! ## The materializer's grouping -/

theorem insertGroup_newKey (acc : List (SysPath × List CodeBlock))
    (b : CodeBlock) (h : ∀ e ∈ acc, e.1 ≠ b.file) :
    insertGroup acc b = acc ++ [(b.file, [b])] := by
  induction acc with
  | nil => rfl
  | cons e rest ih =>
    rcases e with ⟨f, bs⟩
    rw [insertGroup, if_neg (h (f, bs) (List.mem_cons_self _ _)),
      ih (fun e he => h e (List.mem_cons_of_mem _ he))]
    rfl

theorem insertGroup_existingLast (acc : List (SysPath × List CodeBlock))
    (p : SysPath) (cur : List CodeBlock) (b : CodeBlock)
    (hk : ∀ e ∈ acc, e.1 ≠ p) (hb : b.file = p) :
    insertGroup (acc ++ [(p, cur)]) b = acc ++ [(p, cur ++ [b])] := by
  induction acc with
  | nil => simp [insertGroup, hb]
  | cons e rest ih =>
    rcases e with ⟨f, bs⟩
    rw [List.cons_append, insertGroup,
      if_neg (hb ▸ hk (f, bs) (List.mem_cons_self _ _)),
      ih (fun e he => hk e (List.mem_cons_of_mem _ he))]
    rfl

theorem foldl_insertGroup_sameFile (p : SysPath) :
    ∀ (bs : List CodeBlock) (acc : List (SysPath × List CodeBlock))
      (cur : List CodeBlock),
    (∀ b ∈ bs, b.file = p) → (∀ e ∈ acc, e.1 ≠ p) →
    List.foldl insertGroup (acc ++ [(p, cur)]) bs =
      acc ++ [(p, cur ++ bs)] := by
  intro bs
  induction bs with
  | nil => intro acc cur _ _; simp
  | cons b rest ih =>
    intro acc cur h hk
    rw [List.foldl_cons,
      insertGroup_existingLast acc p cur b hk (h b (List.mem_cons_self _ _)),
      ih acc (cur ++ [b]) (fun x hx => h x (List.mem_cons_of_mem _ hx)) hk]
    simp

theorem foldl_insertGroup_newFile (p : SysPath) (b : CodeBlock)
    (bs : List CodeBlock) (acc : List (SysPath × List CodeBlock))
    (h : ∀ x ∈ b :: bs, x.file = p) (hk : ∀ e ∈ acc, e.1 ≠ p) :
    List.foldl insertGroup acc (b :: bs) = acc ++ [(p, b :: bs)] := by
  have hb := h b (List.mem_cons_self _ _)
  rw [List.foldl_cons, insertGroup_newKey acc b (hb ▸ hk), hb,
    foldl_insertGroup_sameFile p bs acc [b]
      (fun x hx => h x (List.mem_cons_of_mem _ hx)) hk]
  rfl

theorem groupByFile_flatMap :
    ∀ (srcs : List Document) (acc : List (SysPath × List CodeBlock)),
    (∀ d ∈ srcs, ∀ e ∈ acc, e.1 ≠ d.path) →
    ((srcs.map Document.path).Nodup) →
    List.foldl insertGroup acc (collectBlockObjects srcs) =
      acc ++ (qualifying srcs).map (fun d => (d.path, pyBlocksOf d)) := by
  intro srcs
  induction srcs with
  | nil => intro acc _ _; simp [collectBlockObjects, qualifying]
  | cons d rest ih =>
    intro acc hk hnd
    simp only [List.map_cons, List.nodup_cons] at hnd
    have hsplit : collectBlockObjects (d :: rest) =
        pyBlocksOf d ++ collectBlockObjects rest := by
      simp [collectBlockObjects]
    rw [hsplit, List.foldl_append]
    have hfile : ∀ x ∈ pyBlocksOf d, x.file = d.path := by
      intro x hx
      exact file_of_mem_extract _ _ _ _ hx
    cases hbs : pyBlocksOf d with
    | nil =>
      have hq : qualifying (d :: rest) = qualifying rest := by
        simp [qualifying, List.filter_cons, hbs]
      rw [hq]
      exact ih acc (fun d2 hd2 => hk d2 (List.mem_cons_of_mem _ hd2)) hnd.2
    | cons b bs =>
      have hq : qualifying (d :: rest) = d :: qualifying rest := by
        simp [qualifying, List.filter_cons, hbs]
      rw [hq]
      rw [foldl_insertGroup_newFile d.path b bs acc
        (fun x hx => hfile x (hbs ▸ hx)) (hk d (List.mem_cons_self _ _))]
      rw [ih (acc ++ [(d.path, b :: bs)]) ?_ hnd.2]
      · rw [← hbs]
        simp
      · intro d2 hd2 e he
        rcases List.mem_append.mp he with he1 | he2
        · exact hk d2 (List.mem_cons_of_mem _ hd2) e he1
        · rw [List.mem_singleton.mp he2]
          intro hp
          have hp2 : d.path = d2.path := hp
          exact hnd.1 (hp2 ▸ List.mem_map_of_mem Document.path hd2)

theorem groupByFile_eq (srcs : List Document)
    (hnd : (srcs.map Document.path).Nodup) :
    groupByFile (collectBlockObjects srcs) =
      (qualifying srcs).map (fun d => (d.path, pyBlocksOf d)) := by
  have h := groupByFile_flatMap srcs [] (by intro d _ e he; cases he) hnd
  simpa [groupByFile] using h

end QuartoTools

namespace QuartoTools

/-! ## Characterizing `extract` -/

theorem chapterLines_eq_join (bs : List CodeBlock) :
    chapterLines bs =
      (bs.map (fun b => [headerFor b, b.code, ([] : List Char)])).flatten := by
  induction bs with
  | nil => rfl
  | cons b rest ih => simp [chapterLines, ih]

theorem extractRecord_doc (base outputDir : SysPath) (d : Document) :
    extractRecord base outputDir (d.path, pyBlocksOf d) =
      (manifestRowFor base outputDir d, artifactFor base outputDir d) := by
  have hp : List.Pairwise
      (fun a b : CodeBlock => a.block_index ≤ b.block_index)
      (pyBlocksOf d) :=
    (extract_pairwise_lt _ _ _).imp Nat.le_of_lt
  simp [extractRecord, manifestRowFor, artifactFor, scriptFor,
    sortByIdx_sorted _ hp]

theorem extract_rows_eq (base outputDir : SysPath) (srcs : List Document)
    (hnd : (srcs.map Document.path).Nodup)
    (hne : collectBlockObjects srcs ≠ []) :
    extract base srcs outputDir =
      (⟨manifestColumns,
        (qualifying srcs).map (manifestRowFor base outputDir)⟩,
       (qualifying srcs).map (artifactFor base outputDir)) := by
  have hne2 : ¬((collectBlockObjects srcs).isEmpty = true) := by
    simp only [List.isEmpty_iff]
    exact hne
  rw [extract]
  simp only [if_neg hne2]
  rw [groupByFile_eq srcs hnd]
  simp only [List.map_map]
  have h1 : ∀ d : Document,
      ((Prod.fst ∘ extractRecord base outputDir) ∘
        fun d => (d.path, pyBlocksOf d)) d =
      manifestRowFor base outputDir d := by
    intro d
    simp [Function.comp, extractRecord_doc]
  have h2 : ∀ d : Document,
      ((Prod.snd ∘ extractRecord base outputDir) ∘
        fun d => (d.path, pyBlocksOf d)) d =
      artifactFor base outputDir d := by
    intro d
    simp [Function.comp, extractRecord_doc]
  have e1 : List.map (Prod.fst ∘ extractRecord base outputDir ∘
      fun d => (d.path, pyBlocksOf d)) (qualifying srcs) =
      List.map (manifestRowFor base outputDir) (qualifying srcs) :=
    List.map_congr_left (fun d _ => h1 d)
  have e2 : List.map (Prod.snd ∘ extractRecord base outputDir ∘
      fun d => (d.path, pyBlocksOf d)) (qualifying srcs) =
      List.map (artifactFor base outputDir) (qualifying srcs) :=
    List.map_congr_left (fun d _ => h2 d)
  rw [e1, e2]

theorem insertGroup_ne_nil (acc : List (SysPath × List CodeBlock))
    (b : CodeBlock) : insertGroup acc b ≠ [] := by
  cases acc with
  | nil => simp [insertGroup]
  | cons e rest =>
    rcases e with ⟨f, bs⟩
    rw [insertGroup]
    by_cases hf : f = b.file
    · simp [hf]
    · simp [hf]

theorem foldl_insertGroup_ne_nil (bs : List CodeBlock)
    (acc : List (SysPath × List CodeBlock)) (ha : acc ≠ []) :
    List.foldl insertGroup acc bs ≠ [] := by
  induction bs generalizing acc with
  | nil => exact ha
  | cons b rest ih => exact ih _ (insertGroup_ne_nil acc b)

theorem extract_rows_empty_iff (base outputDir : SysPath)
    (srcs : List Document) :
    (extract base srcs outputDir).1.rows = [] ↔
      collectBlockObjects srcs = [] := by
  constructor
  · intro h
    cases hb : collectBlockObjects srcs with
    | nil => rfl
    | cons b bs =>
      exfalso
      rw [extract] at h
      simp only [hb] at h
      rw [if_neg (by simp)] at h
      simp only [DataFrame.rows] at h
      rcases List.map_eq_nil_iff.mp h with h2
      have h3 : groupByFile (b :: bs) ≠ [] := by
        rw [groupByFile, List.foldl_cons]
        exact foldl_insertGroup_ne_nil bs _ (insertGroup_ne_nil [] b)
      exact h3 (List.map_eq_nil_iff.mp h2)
  · intro h
    simp [extract, h]

end QuartoTools

namespace QuartoTools

/-! ## The parallel reconciliation pipeline -/

theorem strict_prefix_decomp (base p : SysPath) (h1 : base <+: p)
    (h2 : base.length < p.length) : ∃ t, p = base ++ t ∧ t ≠ [] := by
  rcases h1 with ⟨t, rfl⟩
  refine ⟨t, rfl, ?_⟩
  intro h0
  subst h0
  simp at h2

theorem scriptFor_eq (base outputDir : SysPath) (d : Document)
    (t : List String) (ht : d.path = base ++ t) (htne : t ≠ []) :
    scriptFor base outputDir d = outputDir ++ withSuffixPy t := by
  rw [scriptFor, ht, relTo_append, joinPath, withSuffixPy_append _ _ htne]

theorem relTo_scriptFor (base outputDir : SysPath) (d : Document)
    (t : List String) (ht : d.path = base ++ t) (htne : t ≠ []) :
    joinPath outputDir (relTo outputDir (scriptFor base outputDir d)) =
      scriptFor base outputDir d := by
  rw [scriptFor_eq base outputDir d t ht htne, relTo_append, joinPath]

theorem scriptsOf_extract (base outputDir : SysPath) (srcs : List Document)
    (hnd : (srcs.map Document.path).Nodup)
    (hne : collectBlockObjects srcs ≠ [])
    (hpre : ∀ d ∈ srcs, base <+: d.path ∧ base.length < d.path.length) :
    scriptsOf outputDir (extract base srcs outputDir).1.rows =
      (qualifying srcs).map (scriptFor base outputDir) := by
  rw [extract_rows_eq base outputDir srcs hnd hne]
  rw [scriptsOf, List.map_map]
  apply List.map_congr_left
  intro d hd
  have hd2 : d ∈ srcs := List.mem_of_mem_filter hd
  rcases hpre d hd2 with ⟨hp1, hp2⟩
  rcases strict_prefix_decomp _ _ hp1 hp2 with ⟨t, ht, htne⟩
  simp only [Function.comp, manifestRowFor]
  exact relTo_scriptFor base outputDir d t ht htne

theorem qmdForScript_lookup (base outputDir : SysPath)
    (resolve : SysPath → SysPath) (srcs : List Document)
    (hnd : (srcs.map Document.path).Nodup)
    (hne : collectBlockObjects srcs ≠ [])
    (hpre : ∀ d ∈ srcs, base <+: d.path ∧ base.length < d.path.length)
    (hsc : ((qualifying srcs).map (scriptFor base outputDir)).Nodup)
    (d : Document) (hd : d ∈ qualifying srcs) :
    dictGet (qmdForScriptOf base outputDir resolve
        (extract base srcs outputDir).1.rows)
      (scriptFor base outputDir d) = some (resolve d.path) := by
  rw [extract_rows_eq base outputDir srcs hnd hne, qmdForScriptOf]
  have hd2 : d ∈ srcs := List.mem_of_mem_filter hd
  rcases hpre d hd2 with ⟨hp1, hp2⟩
  rcases strict_prefix_decomp _ _ hp1 hp2 with ⟨t, ht, htne⟩
  have hkey : (joinPath outputDir
      ((manifestRowFor base outputDir d).py_file)) =
      scriptFor base outputDir d := by
    simp only [manifestRowFor]
    exact relTo_scriptFor base outputDir d t ht htne
  have hval : resolve (joinPath base
      ((manifestRowFor base outputDir d).file)) = resolve d.path := by
    simp only [manifestRowFor]
    rw [joinPath_relTo base d.path hp1]
  have hscripts : ∀ d2 ∈ qualifying srcs,
      ((fun r : ManifestRow => joinPath outputDir r.py_file) ∘
        manifestRowFor base outputDir) d2 = scriptFor base outputDir d2 := by
    intro d2 hd2q
    have hd22 : d2 ∈ srcs := List.mem_of_mem_filter hd2q
    rcases hpre d2 hd22 with ⟨hq1, hq2⟩
    rcases strict_prefix_decomp _ _ hq1 hq2 with ⟨t2, ht2, htne2⟩
    simp only [Function.comp, manifestRowFor]
    exact relTo_scriptFor base outputDir d2 t2 ht2 htne2
  have hnodup : (((qualifying srcs).map
      (manifestRowFor base outputDir)).map
      (fun r : ManifestRow => joinPath outputDir r.py_file)).Nodup := by
    rw [List.map_map, List.map_congr_left hscripts]
    exact hsc
  rw [← hkey, ← hval]
  exact dictGet_foldInsert
    (fun r : ManifestRow => joinPath outputDir r.py_file)
    (fun r : ManifestRow => resolve (joinPath base r.file))
    ((qualifying srcs).map (manifestRowFor base outputDir)) []
    (manifestRowFor base outputDir d)
    (List.mem_map_of_mem _ hd) hnodup

theorem resultsOf_eq (rcOf : SysPath → Int) (ks : List SysPath)
    (hnd : ks.Nodup) :
    resultsOf rcOf ks = ks.map (fun k => (k, rcOf k)) := by
  rw [resultsOf]
  have h := foldInsert_eq_map rcOf ks [] (by intro k _ e he; cases he) hnd
  simpa using h

theorem rcByQmd_lookup (base outputDir : SysPath)
    (resolve : SysPath → SysPath) (rcOf : SysPath → Int)
    (srcs : List Document)
    (hnd : (srcs.map Document.path).Nodup)
    (hne : collectBlockObjects srcs ≠ [])
    (hpre : ∀ d ∈ srcs, base <+: d.path ∧ base.length < d.path.length)
    (hsc : ((qualifying srcs).map (scriptFor base outputDir)).Nodup)
    (hresnd : ((qualifying srcs).map (fun d => resolve d.path)).Nodup)
    (d : Document) (hd : d ∈ qualifying srcs) :
    dictGet (rcByQmdOf
        (qmdForScriptOf base outputDir resolve
          (extract base srcs outputDir).1.rows)
        (resultsOf rcOf
          (scriptsOf outputDir (extract base srcs outputDir).1.rows)))
      (resolve d.path) = some (rcOf (scriptFor base outputDir d)) := by
  rw [scriptsOf_extract base outputDir srcs hnd hne hpre,
    resultsOf_eq rcOf _ hsc, List.map_map, rcByQmdOf]
  have hkx : ((dictGet (qmdForScriptOf base outputDir resolve
      (extract base srcs outputDir).1.rows)
      ((((fun k => (k, rcOf k)) ∘ scriptFor base outputDir) d).1)).getD [])
      = resolve d.path := by
    simp only [Function.comp]
    rw [qmdForScript_lookup base outputDir resolve srcs hnd hne hpre hsc d hd]
    rfl
  have hknd : (((qualifying srcs).map
      ((fun k => (k, rcOf k)) ∘ scriptFor base outputDir)).map
      (fun p : SysPath × Int =>
        (dictGet (qmdForScriptOf base outputDir resolve
          (extract base srcs outputDir).1.rows) p.1).getD [])).Nodup := by
    rw [List.map_map]
    have hpt : ∀ d2 ∈ qualifying srcs,
        ((fun p : SysPath × Int =>
          (dictGet (qmdForScriptOf base outputDir resolve
            (extract base srcs outputDir).1.rows) p.1).getD []) ∘
          ((fun k => (k, rcOf k)) ∘ scriptFor base outputDir)) d2 =
        resolve d2.path := by
      intro d2 hd2q
      simp only [Function.comp]
      rw [qmdForScript_lookup base outputDir resolve srcs hnd hne hpre hsc
        d2 hd2q]
      rfl
    rw [List.map_congr_left hpt]
    exact hresnd
  rw [← hkx]
  exact dictGet_foldInsert
    (fun p : SysPath × Int =>
      (dictGet (qmdForScriptOf base outputDir resolve
        (extract base srcs outputDir).1.rows) p.1).getD [])
    (fun p : SysPath × Int => p.2)
    ((qualifying srcs).map ((fun k => (k, rcOf k)) ∘ scriptFor base outputDir))
    [] (((fun k => (k, rcOf k)) ∘ scriptFor base outputDir) d)
    (List.mem_map_of_mem _ hd) hknd

theorem run_parallel_rows (base : SysPath) (srcs : List Document)
    (outputDir : SysPath) (resolve : SysPath → SysPath)
    (rcOf : SysPath → Int) :
    (run_parallel base srcs outputDir resolve rcOf).rows =
      (collectBlockObjects srcs).map
        (parallelRowOf (rcByQmdOf
          (qmdForScriptOf base outputDir resolve
            (extract base srcs outputDir).1.rows)
          (resultsOf rcOf
            (scriptsOf outputDir (extract base srcs outputDir).1.rows)))
          base) := by
  by_cases h : (extract base srcs outputDir).1.rows.isEmpty = true
  · have hb := (extract_rows_empty_iff base outputDir srcs).mp
      (List.isEmpty_iff.mp h)
    simp only [run_parallel]
    rw [if_pos h, hb]
    rfl
  · simp only [run_parallel]
    rw [if_neg h]

end QuartoTools

namespace QuartoTools

/-- C1: in parallel mode, after the engine drains, every block's result
row is reconciled from its chapter's recorded exit code: under the path
assumptions the source relies on (documents strictly under the project
root, `resolve` the identity on document paths, distinct document and
script paths), `ok = (exit_code == 0)` where the exit code is the one
recorded for the chapter script materialized from the block's document;
a non-zero exit code yields the one generic SubprocessError message
naming that exit code, identical for all blocks of the document; and
lineno/col_offset are absent from every parallel-mode row. -/
theorem parallel_reconciliation_per_block :
    ∀ (base outputDir : SysPath) (resolve : SysPath → SysPath)
      (rcOf : SysPath → Int) (srcs : List Document),
    (∀ row ∈ (run_parallel base srcs outputDir resolve rcOf).rows,
        row.mode = "exec-parallel" ∧ row.lineno = none ∧
          row.col_offset = none) ∧
    (∀ (m : List (SysPath × Int)) (b b2 : CodeBlock), b.file = b2.file →
        (parallelRowOf m base b).ok = (parallelRowOf m base b2).ok ∧
          (parallelRowOf m base b).error_message =
            (parallelRowOf m base b2).error_message) ∧
    ((srcs.map Document.path).Nodup →
      (∀ d ∈ srcs, (base.isPrefixOf d.path) = true ∧
        base.length < d.path.length) →
      (∀ d ∈ srcs, resolve d.path = d.path) →
      ((qualifying srcs).map (scriptFor base outputDir)).Nodup →
      ∀ b ∈ collectBlockObjects srcs,
        dictGet (rcByQmdOf
            (qmdForScriptOf base outputDir resolve
              (extract base srcs outputDir).1.rows)
            (resultsOf rcOf
              (scriptsOf outputDir
                (extract base srcs outputDir).1.rows))) b.file =
          some (rcOf (withSuffixPy
            (joinPath outputDir (relTo base b.file)))) ∧
        (parallelRowOf (rcByQmdOf
            (qmdForScriptOf base outputDir resolve
              (extract base srcs outputDir).1.rows)
            (resultsOf rcOf
              (scriptsOf outputDir
                (extract base srcs outputDir).1.rows))) base b).ok =
          (rcOf (withSuffixPy
            (joinPath outputDir (relTo base b.file))) == 0) ∧
        (rcOf (withSuffixPy (joinPath outputDir (relTo base b.file))) ≠ 0 →
          (parallelRowOf (rcByQmdOf
              (qmdForScriptOf base outputDir resolve
                (extract base srcs outputDir).1.rows)
              (resultsOf rcOf
                (scriptsOf outputDir
                  (extract base srcs outputDir).1.rows))) base b).error_type =
              some "SubprocessError" ∧
            (parallelRowOf (rcByQmdOf
                (qmdForScriptOf base outputDir resolve
                  (extract base srcs outputDir).1.rows)
                (resultsOf rcOf
                  (scriptsOf outputDir
                    (extract base srcs outputDir).1.rows))) base
              b).error_message =
              some (genericParallelMsg (rcOf (withSuffixPy
                (joinPath outputDir (relTo base b.file))))))) := by
  intro base outputDir resolve rcOf srcs
  refine ⟨?_, ?_, ?_⟩
  · intro row hrow
    rw [run_parallel_rows] at hrow
    rcases List.mem_map.mp hrow with ⟨b, _, rfl⟩
    exact ⟨rfl, rfl, rfl⟩
  · intro m b b2 hf
    constructor
    · simp [parallelRowOf, hf]
    · simp [parallelRowOf, hf]
  · intro hnd hpreB hres hsc b hb
    rcases mem_collectBlockObjects srcs b hb with ⟨d, hd, hbd, hbf⟩
    have hne : collectBlockObjects srcs ≠ [] := List.ne_nil_of_mem hb
    have hq : d ∈ qualifying srcs := by
      rw [qualifying, List.mem_filter]
      refine ⟨hd, ?_⟩
      simp only [Bool.not_eq_eq_eq_not, Bool.not_true, List.isEmpty_eq_false]
      exact List.ne_nil_of_mem hbd
    have hpre : ∀ d2 ∈ srcs, base <+: d2.path ∧
        base.length < d2.path.length := by
      intro d2 hd2
      exact ⟨List.isPrefixOf_iff_prefix.mp (hpreB d2 hd2).1,
        (hpreB d2 hd2).2⟩
    have hresnd : ((qualifying srcs).map
        (fun d2 => resolve d2.path)).Nodup := by
      have hpt : ∀ d2 ∈ qualifying srcs, resolve d2.path = d2.path := by
        intro d2 hd2q
        exact hres d2 (List.mem_of_mem_filter hd2q)
      rw [List.map_congr_left hpt]
      have hsub : List.Sublist (qualifying srcs) srcs :=
        List.filter_sublist srcs
      exact hnd.sublist (hsub.map Document.path)
    have hlook := rcByQmd_lookup base outputDir resolve rcOf srcs hnd hne
      hpre hsc hresnd d hq
    rw [hres d hd] at hlook
    have hbfs : b.file = d.path := hbf
    have hscript : scriptFor base outputDir d =
        withSuffixPy (joinPath outputDir (relTo base b.file)) := by
      rw [hbfs]
      rfl
    rw [← hbfs, hscript] at hlook
    refine ⟨hlook, ?_, ?_⟩
    · simp [parallelRowOf, hlook]
    · intro hrc
      have hfalse : (rcOf (withSuffixPy
          (joinPath outputDir (relTo base b.file))) == 0) = false :=
        beq_eq_false_iff_ne.mpr hrc
      constructor
      · simp [parallelRowOf, hlook, hfalse]
      · simp [parallelRowOf, hlook, hfalse]

/-- Witness for C1 on the concrete two-chapter project: ch2's script
records exit code 1, and ch2's block is reconciled to a failed row
with the generic message. -/
theorem parallel_reconciliation_per_block_witness :
    ((projSrcs.map Document.path).Nodup ∧
      (∀ d ∈ projSrcs, (projBase.isPrefixOf d.path) = true ∧
        projBase.length < d.path.length) ∧
      (∀ d ∈ projSrcs, id d.path = d.path) ∧
      ((qualifying projSrcs).map (scriptFor projBase projOut)).Nodup ∧
      blockBoom ∈ collectBlockObjects projSrcs) ∧
    (dictGet rcmapP blockBoom.file =
        some (rcStubP (withSuffixPy
          (joinPath projOut (relTo projBase blockBoom.file)))) ∧
      (parallelRowOf rcmapP projBase blockBoom).ok =
        (rcStubP (withSuffixPy
          (joinPath projOut (relTo projBase blockBoom.file))) == 0) ∧
      (rcStubP (withSuffixPy
          (joinPath projOut (relTo projBase blockBoom.file))) ≠ 0 →
        (parallelRowOf rcmapP projBase blockBoom).error_type =
            some "SubprocessError" ∧
          (parallelRowOf rcmapP projBase blockBoom).error_message =
            some (genericParallelMsg (rcStubP (withSuffixPy
              (joinPath projOut (relTo projBase blockBoom.file))))))) :=
  ⟨⟨by decide, by decide, fun d _ => rfl, by decide, by decide⟩,
   (parallel_reconciliation_per_block projBase projOut id rcStubP
      projSrcs).2.2 (by decide) (by decide) (fun d _ => rfl) (by decide)
     blockBoom (by decide)⟩

/-- C8: in `run_parallel` the result rows are exactly the per-block
reconciliation of the exit-code map, and a block whose originating
document path is not a key of that map (the map is keyed by resolved
paths while the lookup uses the block's possibly-unresolved file path)
gets the default exit code 0: its row is ok=True with no error. -/
theorem parallel_missing_doc_defaults_ok :
    (∀ (base outputDir : SysPath) (resolve : SysPath → SysPath)
       (rcOf : SysPath → Int) (srcs : List Document),
      (run_parallel base srcs outputDir resolve rcOf).rows =
        (collectBlockObjects srcs).map
          (parallelRowOf (rcByQmdOf
            (qmdForScriptOf base outputDir resolve
              (extract base srcs outputDir).1.rows)
            (resultsOf rcOf
              (scriptsOf outputDir (extract base srcs outputDir).1.rows)))
            base)) ∧
    (∀ (m : List (SysPath × Int)) (base : SysPath) (b : CodeBlock),
      dictGet m b.file = none →
      parallelRowOf m base b =
        ⟨relTo base b.file, b.block_index, b.label, "exec-parallel", true,
         none, none, none, none⟩) := by
  constructor
  · intro base outputDir resolve rcOf srcs
    exact run_parallel_rows base srcs outputDir resolve rcOf
  · intro m base b h
    simp [parallelRowOf, h]

/-- Witness for C8: under `resolveShift` the map keys are resolved
paths, ch2's raw document path misses, and its failed chapter is
nevertheless reported ok=True with no error. -/
theorem parallel_missing_doc_defaults_ok_witness :
    dictGet rcmapShift blockBoom.file = none ∧
    parallelRowOf rcmapShift projBase blockBoom =
      ⟨relTo projBase blockBoom.file, blockBoom.block_index,
       blockBoom.label, "exec-parallel", true, none, none, none, none⟩ :=
  ⟨by decide,
   parallel_missing_doc_defaults_ok.2 rcmapShift projBase blockBoom
     (by decide)⟩

end QuartoTools

namespace QuartoTools

theorem filter_eq_singleton_of_unique {α : Type} (p : α → Bool) :
    ∀ (l : List α) (d : α), l.Nodup → d ∈ l → p d = true →
    (∀ x ∈ l, p x = true → x = d) → l.filter p = [d] := by
  intro l
  induction l with
  | nil => intro d _ hd; cases hd
  | cons a rest ih =>
    intro d hnd hd hp hu
    rw [List.nodup_cons] at hnd
    rw [List.filter_cons]
    rcases List.mem_cons.mp hd with rfl | hd2
    · rw [if_pos hp]
      have hrest : rest.filter p = [] := by
        rw [List.filter_eq_nil_iff]
        intro x hx hpx
        exact hnd.1 ((hu x (List.mem_cons_of_mem _ hx) hpx) ▸ hx)
      rw [hrest]
    · have hpa : ¬p a = true := by
        intro hpa
        have ha := hu a (List.mem_cons_self _ _) hpa
        subst ha
        exact hnd.1 hd2
      rw [if_neg hpa]
      exact ih d hnd.2 hd2 hp
        (fun x hx hpx => hu x (List.mem_cons_of_mem _ hx) hpx)

theorem collect_ne_of_doc (srcs : List Document) (d : Document)
    (hd : d ∈ srcs) (hq : pyBlocksOf d ≠ []) :
    collectBlockObjects srcs ≠ [] := by
  cases hbs : pyBlocksOf d with
  | nil => exact absurd hbs hq
  | cons b bs =>
    have hb : b ∈ collectBlockObjects srcs :=
      List.mem_flatMap.mpr ⟨d, hd, by
        rw [hbs]
        exact List.mem_cons_self _ _⟩
    exact List.ne_nil_of_mem hb

end QuartoTools

namespace QuartoTools

/-- C6: the materializer writes, for each document with at least one
qualifying block, exactly one script artifact, whose lines are one
header-marked section per block (header, code, blank) in original
block_index order; a document with zero qualifying blocks produces no
artifact and no manifest row; each manifest row records the document
path, the artifact path and the block count.  The uniqueness statements
assume the path conditions the source relies on: distinct document
paths, documents strictly under the project root, and distinct derived
script paths. -/
theorem materializer_one_artifact_per_doc :
    ∀ (base outputDir : SysPath) (srcs : List Document),
    (∀ bs : List CodeBlock, chapterLines bs =
        (bs.map (fun b => [headerFor b, b.code, ([] : List Char)])).flatten) ∧
    (∀ d : Document, (artifactFor base outputDir d).content =
        chapterText (pyBlocksOf d) ∧
      List.Pairwise (fun a b : CodeBlock => a.block_index < b.block_index)
        (pyBlocksOf d)) ∧
    ((srcs.map Document.path).Nodup →
      collectBlockObjects srcs ≠ [] →
      extract base srcs outputDir =
        (⟨manifestColumns,
          (qualifying srcs).map (manifestRowFor base outputDir)⟩,
         (qualifying srcs).map (artifactFor base outputDir))) ∧
    ((srcs.map Document.path).Nodup →
      (∀ d ∈ srcs, (base.isPrefixOf d.path) = true ∧
        base.length < d.path.length) →
      (srcs.map (scriptFor base outputDir)).Nodup →
      ∀ d ∈ srcs,
        (¬(pyBlocksOf d).isEmpty = true →
          (extract base srcs outputDir).2.filter
              (fun a => a.path = scriptFor base outputDir d) =
            [artifactFor base outputDir d]) ∧
        ((pyBlocksOf d).isEmpty = true →
          (∀ a ∈ (extract base srcs outputDir).2,
            a.path ≠ scriptFor base outputDir d) ∧
          (∀ row ∈ (extract base srcs outputDir).1.rows,
            row.file ≠ relTo base d.path))) := by
  intro base outputDir srcs
  refine ⟨chapterLines_eq_join, ?_, ?_, ?_⟩
  · intro d
    exact ⟨rfl, extract_pairwise_lt _ _ _⟩
  · intro hnd hne
    exact extract_rows_eq base outputDir srcs hnd hne
  · intro hnd hpreB hsc d hd
    have hinj : ∀ x ∈ srcs, ∀ y ∈ srcs,
        scriptFor base outputDir x = scriptFor base outputDir y → x = y :=
      List.inj_on_of_nodup_map hsc
    have hpinj : ∀ x ∈ srcs, ∀ y ∈ srcs,
        Document.path x = Document.path y → x = y :=
      List.inj_on_of_nodup_map hnd
    have hndsrcs : srcs.Nodup := hnd.of_map
    have hndq : (qualifying srcs).Nodup :=
      hndsrcs.sublist (List.filter_sublist srcs)
    constructor
    · intro hq
      have hqne : pyBlocksOf d ≠ [] := by
        intro h0
        rw [h0] at hq
        exact hq rfl
      have hne : collectBlockObjects srcs ≠ [] :=
        collect_ne_of_doc srcs d hd hqne
      have hdq : d ∈ qualifying srcs := by
        rw [qualifying, List.mem_filter]
        exact ⟨hd, by simpa using hq⟩
      rw [extract_rows_eq base outputDir srcs hnd hne]
      have hfm : ((qualifying srcs).map (artifactFor base outputDir)).filter
          (fun a => a.path = scriptFor base outputDir d) =
          ((qualifying srcs).filter (fun d2 =>
            scriptFor base outputDir d2 = scriptFor base outputDir d)).map
            (artifactFor base outputDir) := by
        rw [List.filter_map]
        congr 1
      have hsingle : (qualifying srcs).filter (fun d2 =>
          scriptFor base outputDir d2 = scriptFor base outputDir d) = [d] := by
        apply filter_eq_singleton_of_unique _ _ d hndq hdq (by simp)
        intro x hx hpx
        exact hinj x (List.mem_of_mem_filter hx) d hd (by simpa using hpx)
      rw [hfm, hsingle]
      rfl
    · intro hq
      by_cases hne : collectBlockObjects srcs = []
      · constructor
        · intro a ha
          rw [extract] at ha
          simp [hne] at ha
        · intro row hrow
          rw [extract] at hrow
          simp [hne] at hrow
      · rw [extract_rows_eq base outputDir srcs hnd hne]
        constructor
        · intro a ha hpath
          rcases List.mem_map.mp ha with ⟨d2, hd2, rfl⟩
          have hd2s : d2 ∈ srcs := List.mem_of_mem_filter hd2
          have : d2 = d := hinj d2 hd2s d hd hpath
          subst this
          rw [qualifying, List.mem_filter] at hd2
          rw [hq] at hd2
          simp at hd2
        · intro row hrow hfile
          rcases List.mem_map.mp hrow with ⟨d2, hd2, rfl⟩
          have hd2s : d2 ∈ srcs := List.mem_of_mem_filter hd2
          have hjoin : d2.path = d.path := by
            have h1 : joinPath base (relTo base d2.path) = d2.path :=
              joinPath_relTo base d2.path
                (List.isPrefixOf_iff_prefix.mp (hpreB d2 hd2s).1)
            have h2 : joinPath base (relTo base d.path) = d.path :=
              joinPath_relTo base d.path
                (List.isPrefixOf_iff_prefix.mp (hpreB d hd).1)
            have hf2 : relTo base d2.path = relTo base d.path := hfile
            rw [← h1, ← h2, hf2]
          have : d2 = d := hpinj d2 hd2s d hd hjoin
          subst this
          rw [qualifying, List.mem_filter] at hd2
          rw [hq] at hd2
          simp at hd2

end QuartoTools

namespace QuartoTools

/-- Witness for C6 on the concrete project: ch1 (two blocks) gets
exactly one artifact; ch3 (no python blocks) gets no artifact and no
manifest row. -/
theorem materializer_one_artifact_per_doc_witness :
    ((projSrcs2.map Document.path).Nodup ∧
      collectBlockObjects projSrcs2 ≠ [] ∧
      (∀ d ∈ projSrcs2, (projBase.isPrefixOf d.path) = true ∧
        projBase.length < d.path.length) ∧
      (projSrcs2.map (scriptFor projBase projOut)).Nodup ∧
      doc1 ∈ projSrcs2 ∧ docNoPy ∈ projSrcs2 ∧
      ¬(pyBlocksOf doc1).isEmpty = true ∧
      (pyBlocksOf docNoPy).isEmpty = true) ∧
    (extract projBase projSrcs2 projOut =
      (⟨manifestColumns,
        (qualifying projSrcs2).map (manifestRowFor projBase projOut)⟩,
       (qualifying projSrcs2).map (artifactFor projBase projOut))) ∧
    ((extract projBase projSrcs2 projOut).2.filter
        (fun a => a.path = scriptFor projBase projOut doc1) =
      [artifactFor projBase projOut doc1]) ∧
    (∀ a ∈ (extract projBase projSrcs2 projOut).2,
      a.path ≠ scriptFor projBase projOut docNoPy) ∧
    (∀ row ∈ (extract projBase projSrcs2 projOut).1.rows,
      row.file ≠ relTo projBase docNoPy.path) :=
  ⟨⟨by decide, by decide, by decide, by decide, by decide, by decide,
    by decide, by decide⟩,
   (materializer_one_artifact_per_doc projBase projOut projSrcs2).2.2.1
     (by decide) (by decide),
   ((materializer_one_artifact_per_doc projBase projOut projSrcs2).2.2.2
     (by decide) (by decide) (by decide) doc1 (by decide)).1 (by decide),
   (((materializer_one_artifact_per_doc projBase projOut projSrcs2).2.2.2
     (by decide) (by decide) (by decide) docNoPy (by decide)).2
       (by decide)).1,
   (((materializer_one_artifact_per_doc projBase projOut projSrcs2).2.2.2
     (by decide) (by decide) (by decide) docNoPy (by decide)).2
       (by decide)).2⟩

end QuartoTools

namespace QuartoTools

/-! ## Pool invariants -/

theorem filterMap_set_some (l : List (Option SysPath)) :
    ∀ (i : Nat) (s : SysPath) (hi : i < l.length),
    l.get ⟨i, hi⟩ = none →
    List.Perm ((l.set i (some s)).filterMap id) (s :: l.filterMap id) := by
  induction l with
  | nil => intro i s hi; cases (Nat.not_lt_zero i) hi
  | cons h t ih =>
    intro i s hi hg
    cases i with
    | zero =>
      have hh : h = none := hg
      subst hh
      simp [List.set, List.filterMap_cons]
    | succ j =>
      have hj : j < t.length := Nat.lt_of_succ_lt_succ hi
      have hg2 : t.get ⟨j, hj⟩ = none := hg
      cases h with
      | none =>
        simp only [List.set, List.filterMap_cons, id]
        exact ih j s hj hg2
      | some a =>
        simp only [List.set, List.filterMap_cons, id]
        exact ((ih j s hj hg2).cons a).trans (List.Perm.swap s a _)

theorem filterMap_set_none (l : List (Option SysPath)) :
    ∀ (i : Nat) (s : SysPath) (hi : i < l.length),
    l.get ⟨i, hi⟩ = some s →
    List.Perm (s :: (l.set i none).filterMap id) (l.filterMap id) := by
  induction l with
  | nil => intro i s hi; cases (Nat.not_lt_zero i) hi
  | cons h t ih =>
    intro i s hi hg
    cases i with
    | zero =>
      have hh : h = some s := hg
      subst hh
      simp [List.set, List.filterMap_cons]
    | succ j =>
      have hj : j < t.length := Nat.lt_of_succ_lt_succ hi
      have hg2 : t.get ⟨j, hj⟩ = some s := hg
      cases h with
      | none =>
        simp only [List.set, List.filterMap_cons, id]
        exact ih j s hj hg2
      | some a =>
        simp only [List.set, List.filterMap_cons, id]
        exact (List.Perm.swap a s _).trans ((ih j s hj hg2).cons a)

theorem filterMap_nil_of_all_none (l : List (Option SysPath))
    (h : ∀ w ∈ l, w = none) : l.filterMap id = [] := by
  induction l with
  | nil => rfl
  | cons a t ih =>
    have ha : a = none := h a (List.mem_cons_self _ _)
    subst ha
    simp only [List.filterMap_cons, id]
    exact ih (fun w hw => h w (List.mem_cons_of_mem _ hw))

theorem all_none_of_filterMap_nil (l : List (Option SysPath))
    (h : l.filterMap id = []) : ∀ w ∈ l, w = none := by
  induction l with
  | nil => intro w hw; cases hw
  | cons a t ih =>
    cases a with
    | none =>
      intro w hw
      rcases List.mem_cons.mp hw with rfl | hw2
      · rfl
      · exact ih (by simpa [List.filterMap_cons] using h) w hw2
    | some s => simp [List.filterMap_cons] at h

theorem poolStep_workers_length (st st2 : PoolState) (h : PoolStep st st2) :
    st2.workers.length = st.workers.length := by
  cases h <;> simp

theorem pool_workers_length (scripts : List SysPath) (n : Nat) :
    ∀ st, PoolReach scripts n st → st.workers.length = n := by
  intro st h
  induction h with
  | refl => simp [initPool]
  | tail hr hstep ih =>
    rw [poolStep_workers_length _ _ hstep]
    exact ih

theorem pool_conservation (scripts : List SysPath) (n : Nat) :
    ∀ st, PoolReach scripts n st →
    List.Perm (st.queue ++ (runningOf st ++ st.done)) scripts := by
  intro st h
  induction h with
  | refl => simp [initPool, runningOf, List.filterMap_nil]
  | tail hr hstep ih =>
    rename_i b c
    refine List.Perm.trans ?_ ih
    cases hstep with
    | dequeue i s rest hq hi hw =>
      rw [hq]
      have hp := filterMap_set_some b.workers i s hi hw
      have h1 : List.Perm
          (rest ++ ((b.workers.set i (some s)).filterMap id ++ b.done))
          (rest ++ ((s :: runningOf b) ++ b.done)) :=
        List.Perm.append_left rest (List.Perm.append_right b.done hp)
      refine h1.trans ?_
      exact List.perm_middle
    | complete i s hi hw =>
      have hp := filterMap_set_none b.workers i s hi hw
      refine List.Perm.append_left b.queue ?_
      refine List.Perm.trans List.perm_middle ?_
      exact List.Perm.append_right b.done hp

end QuartoTools

namespace QuartoTools

theorem poolStep_measure_lt (st st2 : PoolState) (h : PoolStep st st2) :
    poolMeasure st2 < poolMeasure st := by
  cases h with
  | dequeue i s rest hq hi hw =>
    have hp := filterMap_set_some st.workers i s hi hw
    have hlen : ((st.workers.set i (some s)).filterMap id).length =
        (st.workers.filterMap id).length + 1 := by
      rw [hp.length_eq]
      rfl
    simp only [poolMeasure, runningOf, hq, List.length_cons]
    rw [hlen]
    omega
  | complete i s hi hw =>
    have hp := filterMap_set_none st.workers i s hi hw
    have hlen : ((st.workers.set i none).filterMap id).length + 1 =
        (st.workers.filterMap id).length := by
      rw [← hp.length_eq]
      rfl
    simp only [poolMeasure, runningOf]
    rw [← hlen]
    omega

theorem pool_progress (st : PoolState) (hn : 1 ≤ st.workers.length)
    (hnd : ¬Drained st) : ∃ st2, PoolStep st st2 := by
  by_cases hrun : ∃ i : Fin st.workers.length, ∃ s,
      st.workers.get i = some s
  · rcases hrun with ⟨⟨i, hi⟩, s, hg⟩
    exact ⟨_, PoolStep.complete st i s hi hg⟩
  · push_neg at hrun
    have hall : ∀ i : Fin st.workers.length, st.workers.get i = none := by
      intro i
      cases hg : st.workers.get i with
      | none => rfl
      | some s => exact absurd hg (hrun i s)
    cases hq : st.queue with
    | nil =>
      exfalso
      apply hnd
      refine ⟨hq, ?_⟩
      intro w hw
      rcases List.mem_iff_get.mp hw with ⟨i, rfl⟩
      exact hall i
    | cons s rest =>
      have h0 : (0 : Nat) < st.workers.length := hn
      exact ⟨_, PoolStep.dequeue st 0 s rest hq h0 (hall ⟨0, h0⟩)⟩

theorem pool_drain_aux (n : Nat) (hn : 1 ≤ n) :
    ∀ (k : Nat) (st : PoolState), st.workers.length = n →
    poolMeasure st ≤ k →
    ∃ st2, Relation.ReflTransGen PoolStep st st2 ∧ Drained st2 := by
  intro k
  induction k with
  | zero =>
    intro st hw hm
    refine ⟨st, Relation.ReflTransGen.refl, ?_, ?_⟩
    · have hq : st.queue.length = 0 := by
        have := hm
        simp only [poolMeasure] at this
        omega
      exact List.length_eq_zero.mp hq
    · intro w hmem
      have hr : (runningOf st).length = 0 := by
        have := hm
        simp only [poolMeasure] at this
        omega
      exact all_none_of_filterMap_nil st.workers
        (List.length_eq_zero.mp hr) w hmem
  | succ k ih =>
    intro st hw hm
    by_cases hD : Drained st
    · exact ⟨st, Relation.ReflTransGen.refl, hD⟩
    · rcases pool_progress st (by rw [hw]; exact hn) hD with ⟨st3, hstep⟩
      have hm3 : poolMeasure st3 ≤ k :=
        Nat.lt_succ_iff.mp
          (Nat.lt_of_lt_of_le (poolStep_measure_lt st st3 hstep) hm)
      have hw3 : st3.workers.length = n := by
        rw [poolStep_workers_length st st3 hstep]
        exact hw
      rcases ih st3 hw3 hm3 with ⟨st2, hr, hD2⟩
      exact ⟨st2, Relation.ReflTransGen.head hstep hr, hD2⟩

end QuartoTools

namespace QuartoTools

/-- C4: in the worker-pool model of the parallel engine, for any
concurrency N ≥ 1 and any pre-loaded script queue, no reachable state
ever has more than N subprocesses alive (each of the N workers owns at
most one), and the engine can always run to a drained state with no
deadlock, in which the completed scripts are exactly the enqueued ones
— each run exactly once (a permutation of the queue's contents). -/
theorem pool_cap_and_drain :
    ∀ (scripts : List SysPath) (n : Nat), 1 ≤ n →
    (∀ st, PoolReach scripts n st → (runningOf st).length ≤ n) ∧
    (∃ st, PoolReach scripts n st ∧ Drained st ∧
      List.Perm st.done scripts) := by
  intro scripts n hn
  constructor
  · intro st hr
    have h1 : (runningOf st).length ≤ st.workers.length :=
      List.length_filterMap_le id st.workers
    rw [pool_workers_length scripts n st hr] at h1
    exact h1
  · rcases pool_drain_aux n hn (poolMeasure (initPool scripts n))
      (initPool scripts n) (by simp [initPool]) (Nat.le_refl _) with
      ⟨st2, hr, hD⟩
    refine ⟨st2, hr, hD, ?_⟩
    have hc := pool_conservation scripts n st2 hr
    rw [hD.1] at hc
    have hrun : runningOf st2 = [] := filterMap_nil_of_all_none _ hD.2
    rw [runningOf] at hrun
    simp only [runningOf] at hc
    rw [hrun] at hc
    simpa using hc

/-- Witness for C4: five scripts under concurrency 2. -/
theorem pool_cap_and_drain_witness :
    1 ≤ 2 ∧
    ((∀ st, PoolReach [["s1"], ["s2"], ["s3"], ["s4"], ["s5"]] 2 st →
        (runningOf st).length ≤ 2) ∧
      (∃ st, PoolReach [["s1"], ["s2"], ["s3"], ["s4"], ["s5"]] 2 st ∧
        Drained st ∧
        List.Perm st.done [["s1"], ["s2"], ["s3"], ["s4"], ["s5"]])) :=
  ⟨by decide,
   pool_cap_and_drain [["s1"], ["s2"], ["s3"], ["s4"], ["s5"]] 2 (by decide)⟩

end QuartoTools
